import Mathlib

/-!
Verification development for the npm package cache of `cli/npm/cache.rs`.

Strings from the Rust source are modelled as lists of byte values
(`List Nat`), which coincides with their UTF-8 representation; all package
names and versions handled by the claims are ASCII.  Filesystem paths are
modelled as lists of path segments.  External collaborators that are not
part of the repository sources (the `base32` crate, `deno_semver` version
parsing, URL handling, the tarball extractor, the cache-policy type and the
hard-link utility) are modelled from the specification, each marked by a
doc comment.
-/

namespace NpmCache

/-- Split a byte string on a separator byte, mirroring Rust `str::split`:
the result always has at least one (possibly empty) piece. -/
def splitOn (sep : Nat) : List Nat → List (List Nat)
  | [] => [[]]
  | c :: rest =>
    let r := splitOn sep rest
    if c = sep then [] :: r else (c :: r.headD []) :: r.tail

/-- Join byte strings with the `/` byte (47), mirroring `Vec::join("/")` and
the build-up of a path from its segments. -/
def joinSlash : List (List Nat) → List Nat
  | [] => []
  | [p] => p
  | p :: q :: rest => p ++ 47 :: joinSlash (q :: rest)

/-- Rust `str::split_once`: split at the first occurrence of the separator. -/
def splitOnce (sep : Nat) : List Nat → Option (List Nat × List Nat)
  | [] => none
  | c :: rest =>
    if c = sep then some ([], rest)
    else (splitOnce sep rest).map (fun ab => (c :: ab.1, ab.2))

/-- Split at the last occurrence of the separator (Rust `str::rsplit_once`,
up to argument order).  Used to state the specification's description of the
version segment decoding. -/
def splitLastOnce (sep : Nat) (l : List Nat) : Option (List Nat × List Nat) :=
  (splitOnce sep l.reverse).map (fun ba => (ba.2.reverse, ba.1.reverse))

/-! ### Base32 (RFC 4648, no padding)

Modelled from the spec: the external `base32` crate used by
`mixed_case_package_name_encode`/`decode` is not part of the repository
sources; the spec describes it as a "reversible base-32 transform (RFC-4648
alphabet, no padding, lower-cased)".  Bytes are serialized most significant
bit first into a bit stream, the stream is zero-padded to a multiple of five
bits for encoding, and decoding truncates to `count * 5 / 8` bytes exactly
as RFC 4648 without padding prescribes. -/

/-- The `w`-bit big-endian bit pattern of `v`. -/
def natToBits : Nat → Nat → List Bool
  | 0, _ => []
  | w + 1, v => v.testBit w :: natToBits w v

/-- Value of a big-endian bit list. -/
def bitsToNat (l : List Bool) : Nat :=
  l.foldl (fun acc b => 2 * acc + (if b then 1 else 0)) 0

/-- Concatenate the bit patterns of a list of values. -/
def flatMapBits (f : Nat → List Bool) : List Nat → List Bool
  | [] => []
  | v :: rest => f v ++ flatMapBits f rest

/-- Group a bit stream into 5-bit values, dropping an incomplete tail. -/
def bitsToVals5 : List Bool → List Nat
  | b1 :: b2 :: b3 :: b4 :: b5 :: rest =>
    bitsToNat [b1, b2, b3, b4, b5] :: bitsToVals5 rest
  | _ => []

/-- Group a bit stream into bytes, dropping an incomplete tail. -/
def bitsToVals8 : List Bool → List Nat
  | b1 :: b2 :: b3 :: b4 :: b5 :: b6 :: b7 :: b8 :: rest =>
    bitsToNat [b1, b2, b3, b4, b5, b6, b7, b8] :: bitsToVals8 rest
  | _ => []

/-- Lower-cased RFC 4648 alphabet: values 0-25 map to `a`-`z`,
values 26-31 map to `2`-`7`. -/
def b32charOf (v : Nat) : Nat := if v < 26 then 97 + v else 50 + (v - 26)

/-- Inverse alphabet lookup; accepts both cases like the decoder, which
upper-cases each character before the table lookup. -/
def b32invOf (c : Nat) : Option Nat :=
  let u := if 97 ≤ c ∧ c ≤ 122 then c - 32 else c
  if 65 ≤ u ∧ u ≤ 90 then some (u - 65)
  else if 50 ≤ u ∧ u ≤ 55 then some (u - 50 + 26)
  else none

/-- Map the inverse alphabet over a character list, failing on the first
character outside the alphabet. -/
def mapDecodeChars : List Nat → Option (List Nat)
  | [] => some []
  | c :: rest =>
    match b32invOf c, mapDecodeChars rest with
    | some v, some vs => some (v :: vs)
    | _, _ => none

/-- RFC 4648 base32 encoding without padding, lower-cased output. -/
def base32Encode (bytes : List Nat) : List Nat :=
  let bits := flatMapBits (natToBits 8) bytes
  let pad := List.replicate ((5 - bits.length % 5) % 5) false
  (bitsToVals5 (bits ++ pad)).map b32charOf

/-- RFC 4648 base32 decoding without padding. -/
def base32Decode (chars : List Nat) : Option (List Nat) :=
  (mapDecodeChars chars).map (fun vals =>
    bitsToVals8 ((flatMapBits (natToBits 5) vals).take (8 * (chars.length * 5 / 8))))

/-- Source `mixed_case_package_name_encode`: base32 encode the name's bytes
and lower-case the result (the model's alphabet is already lower case). -/
def mixed_case_package_name_encode (name : List Nat) : List Nat :=
  base32Encode name

/-- Modelled from the spec: Rust `String::from_utf8`, restricted to the
ASCII fragment, which covers every syntactically valid package name. -/
def string_from_utf8 (bs : List Nat) : Option (List Nat) :=
  if bs.all (fun c => c < 128) then some bs else none

/-- Source `mixed_case_package_name_decode`: base32 decode then re-read the
bytes as a string. -/
def mixed_case_package_name_decode (s : List Nat) : Option (List Nat) :=
  (base32Decode s).bind string_from_utf8

/-! ### Path codec (`ReadonlyNpmCache`)

Paths are modelled relative to the registry folder
`<cache-root>/<safe-registry-dirname>/`: the cache root, the
registry-to-dirname transform (`root_url_to_safe_local_dirname`, outside
these sources) and URL `make_relative` are modelled away, so an encoded
folder corresponds to the relative URL obtained by joining its segments
with `/`. -/

/-- ASCII lower-casing of one byte; agrees with Rust `str::to_lowercase`
on the ASCII strings the validity predicates admit. -/
def asciiLowerChar (c : Nat) : Nat := if 65 ≤ c ∧ c ≤ 90 then c + 32 else c

/-- ASCII lower-casing of a byte string. -/
def asciiLower (s : List Nat) : List Nat := s.map asciiLowerChar

/-- A package name and version (`deno_semver::npm::NpmPackageNv`). -/
structure NpmPackageNv where
  name : List Nat
  version : List Nat
deriving DecidableEq

/-- A cache folder identity (`deno_npm::NpmPackageCacheFolderId`): an
`nv` plus the duplicate-copy index. -/
structure NpmPackageCacheFolderId where
  nv : NpmPackageNv
  copy_index : Nat
deriving DecidableEq

/-- Decimal digits of a number, most significant first (Rust `format!`). -/
def natToDecimalDigits (n : Nat) : List Nat :=
  if n < 10 then [48 + n]
  else natToDecimalDigits (n / 10) ++ [48 + n % 10]
decreasing_by exact Nat.div_lt_self (by omega) (by omega)

/-- Source `ReadonlyNpmCache::package_name_folder`, as segments below the
registry folder: mixed-case names become one `_`-prefixed base32 segment,
lower-case names are split on `/` into literal directories. -/
def package_name_folder (name : List Nat) : List (List Nat) :=
  if asciiLower name ≠ name then [95 :: mixed_case_package_name_encode name]
  else splitOn 47 name

/-- Source `ReadonlyNpmCache::package_folder_for_name_and_version`. -/
def package_folder_for_name_and_version (package : NpmPackageNv) : List (List Nat) :=
  package_name_folder package.name ++ [package.version]

/-- Source `ReadonlyNpmCache::package_folder_for_id`: the version directory
gains a `_<copy_index>` suffix when the index is non-zero. -/
def package_folder_for_id (folder_id : NpmPackageCacheFolderId) : List (List Nat) :=
  if folder_id.copy_index = 0 then
    package_folder_for_name_and_version folder_id.nv
  else
    package_name_folder folder_id.nv.name ++
      [folder_id.nv.version ++ 95 :: natToDecimalDigits folder_id.copy_index]

/-- One byte is a decimal digit. -/
def isDigitB (c : Nat) : Bool := decide (48 ≤ c ∧ c ≤ 57)

/-- Value of a list of decimal digit bytes. -/
def digitsVal (s : List Nat) : Nat :=
  s.foldl (fun acc c => 10 * acc + (c - 48)) 0

/-- Strip one leading `+` byte if present (Rust integer parsing accepts an
optional sign). -/
def stripLeadingPlus (s : List Nat) : List Nat :=
  if s.head? = some 43 then s.tail else s

/-- Rust `str::parse::<u8>`: an optional leading `+`, then at least one
decimal digit, with overflow above 255 rejected. -/
def parseU8 (s : List Nat) : Option Nat :=
  let digits := stripLeadingPlus s
  if digits ≠ [] ∧ digits.all isDigitB then
    if digitsVal digits ≤ 255 then some (digitsVal digits) else none
  else none

/-- Bytes admitted inside a semver identifier: digits, letters, `-`. -/
def isIdentCharB (c : Nat) : Bool :=
  isDigitB c || decide (97 ≤ c ∧ c ≤ 122) || decide (65 ≤ c ∧ c ≤ 90) || c == 45

/-- Bytes admitted anywhere in a semver string: identifier bytes plus the
separators `.` and `+`. -/
def isSemverCharB (c : Nat) : Bool := isIdentCharB c || c == 46 || c == 43

/-- A non-empty all-digits numeric identifier. -/
def validNumericB (s : List Nat) : Bool := !s.isEmpty && s.all isDigitB

/-- A non-empty prerelease or build identifier. -/
def validIdentB (s : List Nat) : Bool := !s.isEmpty && s.all isIdentCharB

/-- A dot-separated list of identifiers. -/
def validDottedB (s : List Nat) : Bool := (splitOn 46 s).all validIdentB

/-- The `major.minor.patch` core of a semver string. -/
def validCoreB (s : List Nat) : Bool :=
  match splitOn 46 s with
  | [a, b, c] => validNumericB a && validNumericB b && validNumericB c
  | _ => false

/-- Core plus optional `-prerelease` (the prerelease may itself contain
`-`; the core never does, so splitting at the first `-` is exact). -/
def validMainPreB (s : List Nat) : Bool :=
  match splitOnce 45 s with
  | some (core, pre) => validCoreB core && validDottedB pre
  | none => validCoreB s

/-- Modelled from the spec: well-formedness of a normalized npm semver
string (`deno_semver::Version` is not part of the repository sources; the
spec describes versions as parsed semantic versions).  The string is
`major.minor.patch` with optional `-prerelease` and `+build` suffixes over
the semver byte alphabet. -/
def validSemverB (s : List Nat) : Bool :=
  s.all isSemverCharB &&
    (match splitOnce 43 s with
     | some (mainpre, build) => validMainPreB mainpre && validDottedB build
     | none => validMainPreB s)

/-- Modelled from the spec: `deno_semver::Version::parse_from_npm` followed
by `Display`, on normalized version strings: parsing a well-formed
normalized version is the identity, anything else fails. -/
def parse_from_npm (s : List Nat) : Option (List Nat) :=
  if validSemverB s then some s else none

/-- The version-segment decoding step of
`maybe_resolve_package_folder_id_from_specifier` (cache.rs lines 259-268):
split at the first `_` if any, parse the suffix as `u8`, default the copy
index to 0, then parse the version. -/
def parseVersionAndCopyIndex (version_part : List Nat) : Option (List Nat × Nat) :=
  (splitOnce 95 version_part).elim
    ((parse_from_npm version_part).map (fun v => (v, 0)))
    (fun vc => (parseU8 vc.2).bind (fun ci =>
      (parse_from_npm vc.1).map (fun v => (v, ci))))

/-- The same step as the specification words it: split at the last `_`. -/
def parseVersionAndCopyIndexSpec (version_part : List Nat) : Option (List Nat × Nat) :=
  (splitLastOnce 95 version_part).elim
    ((parse_from_npm version_part).map (fun v => (v, 0)))
    (fun vc => (parseU8 vc.2).bind (fun ci =>
      (parse_from_npm vc.1).map (fun v => (v, ci))))

/-- The `relative_url.starts_with("../")` escape check. -/
def startsWithDotDotSlash (l : List Nat) : Bool :=
  decide (l.take 3 = [46, 46, 47])

/-- The underscore-prefix handling of
`maybe_resolve_package_folder_id_from_specifier` (cache.rs lines 229-241):
base32-decode the first segment when the relative URL starts with `_`. -/
def decodeEncodedNameStep (relative_url : List Nat) : Option (List Nat) :=
  if relative_url.head? = some 95 then
    let parts := splitOn 47 relative_url.tail
    parts.head?.bind (fun p0 =>
      (mixed_case_package_name_decode p0).map (fun part => joinSlash (part :: parts.tail)))
  else some relative_url

/-- The segment selection of
`maybe_resolve_package_folder_id_from_specifier` (cache.rs lines 243-256):
take two segments, or three for scoped packages, and require at least two. -/
def resolveTakenParts (relative_url : List Nat) : Option (List (List Nat)) :=
  if startsWithDotDotSlash relative_url then none
  else
    (decodeEncodedNameStep relative_url).bind (fun rel =>
      let is_scoped_package := rel.head? = some 64
      let parts := (splitOn 47 rel).take (if is_scoped_package then 3 else 2)
      if parts.length < 2 then none else some parts)

/-- Source `ReadonlyNpmCache::maybe_resolve_package_folder_id_from_specifier`,
on the URL made relative to the registry root folder. -/
def maybe_resolve_package_folder_id_from_specifier
    (relative_url : List Nat) : Option NpmPackageCacheFolderId :=
  (resolveTakenParts relative_url).bind (fun parts =>
    parts.getLast?.bind (fun version_part =>
      (parseVersionAndCopyIndex version_part).map (fun vc =>
        ⟨⟨joinSlash parts.dropLast, vc.1⟩, vc.2⟩)))

/-- The same resolution with the version segment split at the last `_`, as
the specification describes it. -/
def maybe_resolve_spec_split (relative_url : List Nat) : Option NpmPackageCacheFolderId :=
  (resolveTakenParts relative_url).bind (fun parts =>
    parts.getLast?.bind (fun version_part =>
      (parseVersionAndCopyIndexSpec version_part).map (fun vc =>
        ⟨⟨joinSlash parts.dropLast, vc.1⟩, vc.2⟩)))

/-! ### Validity predicates for package names (npm naming rules) -/

/-- Bytes admitted in an npm name segment: digits, letters (old registry
names may contain upper case), `-`, `.`, `_`. -/
def isNameChar (c : Nat) : Bool :=
  isDigitB c || decide (97 ≤ c ∧ c ≤ 122) || decide (65 ≤ c ∧ c ≤ 90) ||
    c == 45 || c == 46 || c == 95

/-- A name segment: non-empty, name bytes only, not starting with `.`
or `_`. -/
def validNamePart (p : List Nat) : Bool :=
  !p.isEmpty && p.all isNameChar && p.head? != some 46 && p.head? != some 95

/-- A syntactically valid package name: either a plain segment or a scoped
`@scope/name` pair of segments. -/
def validPackageName (n : List Nat) : Bool :=
  if n.head? = some 64 then
    (splitOnce 47 n.tail).elim false
      (fun sp => validNamePart sp.1 && validNamePart sp.2)
  else validNamePart n


/-! ### Splitting and joining lemmas -/

theorem splitOn_nil (sep : Nat) : splitOn sep [] = [[]] := rfl

theorem splitOn_ne_nil (sep : Nat) (l : List Nat) : splitOn sep l ≠ [] := by
  cases l with
  | nil => simp [splitOn]
  | cons c rest => simp only [splitOn]; split <;> simp

theorem splitOn_of_not_mem (sep : Nat) (l : List Nat) (h : sep ∉ l) :
    splitOn sep l = [l] := by
  induction l with
  | nil => rfl
  | cons c rest ih =>
    have hc : c ≠ sep := fun hc => h (hc ▸ List.mem_cons_self c rest)
    have hrest : sep ∉ rest := fun hm => h (List.mem_cons_of_mem c hm)
    simp only [splitOn, ih hrest, if_neg hc]
    rfl

theorem splitOn_append (sep : Nat) (a b : List Nat) :
    splitOn sep (a ++ sep :: b) = splitOn sep a ++ splitOn sep b := by
  induction a with
  | nil =>
    simp only [List.nil_append, splitOn, if_pos rfl]
    rfl
  | cons c a' ih =>
    simp only [List.cons_append, splitOn, List.append_eq]
    rw [ih]
    cases h : splitOn sep a' with
    | nil => exact absurd h (splitOn_ne_nil sep a')
    | cons s ss => split <;> simp

theorem joinSlash_cons_of_ne_nil (p : List Nat) (rest : List (List Nat))
    (h : rest ≠ []) : joinSlash (p :: rest) = p ++ 47 :: joinSlash rest := by
  cases rest with
  | nil => exact absurd rfl h
  | cons q r => rfl

theorem joinSlash_splitOn (l : List Nat) : joinSlash (splitOn 47 l) = l := by
  induction l with
  | nil => rfl
  | cons c rest ih =>
    simp only [splitOn]
    by_cases hc : c = 47
    · subst hc
      rw [if_pos rfl, joinSlash_cons_of_ne_nil _ _ (splitOn_ne_nil 47 rest), ih]
      rfl
    · rw [if_neg hc]
      cases h : splitOn 47 rest with
      | nil => exact absurd h (splitOn_ne_nil 47 rest)
      | cons s ss =>
        rw [h] at ih
        cases ss with
        | nil => simpa [joinSlash] using congrArg (c :: ·) ih
        | cons t ts =>
          rw [joinSlash_cons_of_ne_nil _ _ (by simp)] at ih
          simp only [List.headD_cons, List.tail_cons]
          rw [joinSlash_cons_of_ne_nil _ _ (by simp)]
          simp [← ih]

theorem splitOn_joinSlash (parts : List (List Nat))
    (hne : parts ≠ []) (hfree : ∀ p ∈ parts, (47 : Nat) ∉ p) :
    splitOn 47 (joinSlash parts) = parts := by
  induction parts with
  | nil => exact absurd rfl hne
  | cons p rest ih =>
    cases rest with
    | nil =>
      simp only [joinSlash]
      exact splitOn_of_not_mem 47 p (hfree p (by simp))
    | cons q r =>
      rw [joinSlash_cons_of_ne_nil _ _ (by simp), splitOn_append,
        splitOn_of_not_mem 47 p (hfree p (by simp)),
        ih (by simp) (fun x hx => hfree x (List.mem_cons_of_mem p hx))]
      rfl

theorem head?_append_left {α : Type} (a b : List α) (h : a ≠ []) :
    (a ++ b).head? = a.head? := by
  cases a with
  | nil => exact absurd rfl h
  | cons x xs => rfl

/-! ### splitOnce and splitLastOnce lemmas -/

theorem splitOnce_eq_none_iff (sep : Nat) (l : List Nat) :
    splitOnce sep l = none ↔ sep ∉ l := by
  induction l with
  | nil => simp [splitOnce]
  | cons c rest ih =>
    simp only [splitOnce]
    by_cases hc : c = sep
    · subst hc; simp
    · rw [if_neg hc]
      simp only [Option.map_eq_none', ih, List.mem_cons]
      constructor
      · intro hn hor
        rcases hor with h1 | h1
        · exact hc h1.symm
        · exact hn h1
      · intro hn hm
        exact hn (Or.inr hm)

theorem splitOnce_append (sep : Nat) (a b : List Nat) (h : sep ∉ a) :
    splitOnce sep (a ++ sep :: b) = some (a, b) := by
  induction a with
  | nil => simp [splitOnce]
  | cons c a' ih =>
    have hc : c ≠ sep := fun hc => h (hc ▸ List.mem_cons_self c a')
    have ha' : sep ∉ a' := fun hm => h (List.mem_cons_of_mem c hm)
    simp only [List.cons_append, splitOnce, if_neg hc, List.append_eq, ih ha',
      Option.map_some']

theorem splitOnce_eq_some (sep : Nat) : ∀ (l a b : List Nat),
    splitOnce sep l = some (a, b) → l = a ++ sep :: b ∧ sep ∉ a
  | [], a, b, h => by simp [splitOnce] at h
  | c :: rest, a, b, h => by
    simp only [splitOnce] at h
    by_cases hc : c = sep
    · subst hc
      rw [if_pos rfl] at h
      simp only [Option.some.injEq, Prod.mk.injEq] at h
      obtain ⟨ha, hb⟩ := h
      subst ha; subst hb
      simp
    · rw [if_neg hc] at h
      rcases Option.map_eq_some'.mp h with ⟨⟨a0, b0⟩, hr, heq⟩
      simp only [Prod.mk.injEq] at heq
      obtain ⟨hl, hfree⟩ := splitOnce_eq_some sep rest a0 b0 hr
      subst hl
      constructor
      · rw [← heq.1, ← heq.2]
        simp
      · rw [← heq.1]
        intro hmem
        rcases List.mem_cons.mp hmem with h1 | h1
        · exact hc h1.symm
        · exact hfree h1

theorem splitLastOnce_eq_none_iff (sep : Nat) (l : List Nat) :
    splitLastOnce sep l = none ↔ sep ∉ l := by
  unfold splitLastOnce
  rw [Option.map_eq_none', splitOnce_eq_none_iff, List.mem_reverse]

theorem splitLastOnce_append (sep : Nat) (a b : List Nat) (h : sep ∉ b) :
    splitLastOnce sep (a ++ sep :: b) = some (a, b) := by
  unfold splitLastOnce
  have hrev : (a ++ sep :: b).reverse = b.reverse ++ sep :: a.reverse := by
    simp [List.reverse_append]
  rw [hrev, splitOnce_append sep _ _ (by simpa using h)]
  simp

theorem splitLastOnce_eq_some (sep : Nat) (l a b : List Nat)
    (h : splitLastOnce sep l = some (a, b)) :
    l = a ++ sep :: b ∧ sep ∉ b := by
  unfold splitLastOnce at h
  rcases Option.map_eq_some'.mp h with ⟨⟨b0, a0⟩, hr, heq⟩
  simp only [Prod.mk.injEq] at heq
  obtain ⟨ha, hb⟩ := heq
  obtain ⟨hl, hfree⟩ := splitOnce_eq_some sep l.reverse b0 a0 hr
  constructor
  · have h2 := congrArg List.reverse hl
    simp only [List.reverse_reverse, List.reverse_append] at h2
    rw [h2, ← ha, ← hb]
    simp
  · rw [← hb]
    simpa using hfree

/-! ### Base32 roundtrip lemmas -/

theorem length_natToBits (w v : Nat) : (natToBits w v).length = w := by
  induction w generalizing v with
  | zero => rfl
  | succ k ih => simp [natToBits, ih]

theorem foldl_natToBits (w : Nat) : ∀ (v a : Nat),
    (natToBits w v).foldl (fun acc b => 2 * acc + (if b then 1 else 0)) a =
      a * 2 ^ w + v % 2 ^ w := by
  induction w with
  | zero => intro v a; simp [natToBits, Nat.mod_one]
  | succ k ih =>
    intro v a
    simp only [natToBits, List.foldl_cons]
    rw [ih]
    have hbit : (if v.testBit k then (1 : Nat) else 0) = v / 2 ^ k % 2 := by
      rw [Nat.testBit_to_div_mod]
      rcases Nat.mod_two_eq_zero_or_one (v / 2 ^ k) with h | h <;> simp [h]
    rw [hbit, Nat.mod_pow_succ]
    ring

theorem bitsToNat_natToBits (w v : Nat) : bitsToNat (natToBits w v) = v % 2 ^ w := by
  have h := foldl_natToBits w v 0
  simpa [bitsToNat] using h

theorem bitsToNat_natToBits8 (v : Nat) (h : v < 256) :
    bitsToNat (natToBits 8 v) = v := by
  rw [bitsToNat_natToBits]
  have h2 : (2 : Nat) ^ 8 = 256 := by norm_num
  rw [h2]
  exact Nat.mod_eq_of_lt h

theorem natToBits5_bitsToNat : ∀ (b1 b2 b3 b4 b5 : Bool),
    natToBits 5 (bitsToNat [b1, b2, b3, b4, b5]) = [b1, b2, b3, b4, b5] := by
  decide

theorem bitsToNat5_lt : ∀ (b1 b2 b3 b4 b5 : Bool),
    bitsToNat [b1, b2, b3, b4, b5] < 32 := by
  decide

theorem bitsToVals5_lt : ∀ (l : List Bool), ∀ v ∈ bitsToVals5 l, v < 32
  | [] => by simp [bitsToVals5]
  | [_] => by simp [bitsToVals5]
  | [_, _] => by simp [bitsToVals5]
  | [_, _, _] => by simp [bitsToVals5]
  | [_, _, _, _] => by simp [bitsToVals5]
  | b1 :: b2 :: b3 :: b4 :: b5 :: rest => by
    intro v hv
    simp only [bitsToVals5, List.mem_cons] at hv
    rcases hv with h | h
    · subst h; exact bitsToNat5_lt b1 b2 b3 b4 b5
    · exact bitsToVals5_lt rest v h

theorem flatMapBits_bitsToVals5 : ∀ (l : List Bool), l.length % 5 = 0 →
    flatMapBits (natToBits 5) (bitsToVals5 l) = l
  | [], _ => rfl
  | [_], h => by simp at h
  | [_, _], h => by simp at h
  | [_, _, _], h => by simp at h
  | [_, _, _, _], h => by simp at h
  | b1 :: b2 :: b3 :: b4 :: b5 :: rest, h => by
    have hr : rest.length % 5 = 0 := by
      simp only [List.length_cons] at h
      omega
    simp only [bitsToVals5, flatMapBits]
    rw [natToBits5_bitsToNat, flatMapBits_bitsToVals5 rest hr]
    rfl

theorem length_flatMapBits (w : Nat) : ∀ (l : List Nat),
    (flatMapBits (natToBits w) l).length = w * l.length
  | [] => by simp [flatMapBits]
  | v :: rest => by
    simp only [flatMapBits, List.length_append, length_natToBits,
      length_flatMapBits w rest, List.length_cons]
    ring

theorem bitsToVals8_append (l : List Bool) (rest : List Bool) (h : l.length = 8) :
    bitsToVals8 (l ++ rest) = bitsToNat l :: bitsToVals8 rest := by
  match l with
  | [_, _, _, _, _, _, _, _] => rfl
  | [] => simp at h
  | [_] => simp at h
  | [_, _] => simp at h
  | [_, _, _] => simp at h
  | [_, _, _, _] => simp at h
  | [_, _, _, _, _] => simp at h
  | [_, _, _, _, _, _] => simp at h
  | [_, _, _, _, _, _, _] => simp at h
  | _ :: _ :: _ :: _ :: _ :: _ :: _ :: _ :: _ :: tail =>
    simp only [List.length_cons] at h
    omega

theorem bitsToVals8_flatMapBits : ∀ (bytes : List Nat), (∀ b ∈ bytes, b < 256) →
    bitsToVals8 (flatMapBits (natToBits 8) bytes) = bytes
  | [], _ => rfl
  | v :: rest, h => by
    have hv : v < 256 := h v (by simp)
    have hrest : ∀ b ∈ rest, b < 256 := fun b hb => h b (List.mem_cons_of_mem v hb)
    simp only [flatMapBits]
    rw [bitsToVals8_append _ _ (length_natToBits 8 v), bitsToNat_natToBits8 v hv,
      bitsToVals8_flatMapBits rest hrest]

theorem b32invOf_b32charOf (v : Nat) (h : v < 32) : b32invOf (b32charOf v) = some v := by
  simp only [b32invOf, b32charOf]
  split_ifs <;> simp_all <;> omega

theorem mapDecodeChars_map (vals : List Nat) (h : ∀ v ∈ vals, v < 32) :
    mapDecodeChars (vals.map b32charOf) = some vals := by
  induction vals with
  | nil => rfl
  | cons v rest ih =>
    simp only [List.map_cons, mapDecodeChars]
    rw [b32invOf_b32charOf v (h v (by simp)),
      ih (fun x hx => h x (List.mem_cons_of_mem v hx))]

theorem base32_roundtrip (bytes : List Nat) (h : ∀ b ∈ bytes, b < 256) :
    base32Decode (base32Encode bytes) = some bytes := by
  simp only [base32Encode, base32Decode]
  have hlen8 : (flatMapBits (natToBits 8) bytes).length = 8 * bytes.length :=
    length_flatMapBits 8 bytes
  have hmod : ((flatMapBits (natToBits 8) bytes) ++
      List.replicate ((5 - (flatMapBits (natToBits 8) bytes).length % 5) % 5) false).length
        % 5 = 0 := by
    simp only [List.length_append, List.length_replicate]
    omega
  have hvals32 := bitsToVals5_lt ((flatMapBits (natToBits 8) bytes) ++
    List.replicate ((5 - (flatMapBits (natToBits 8) bytes).length % 5) % 5) false)
  rw [mapDecodeChars_map _ hvals32, Option.map_some']
  have hflat := flatMapBits_bitsToVals5 _ hmod
  have hplen := congrArg List.length hflat
  rw [length_flatMapBits] at hplen
  rw [hflat]
  have hcount : 8 * (((bitsToVals5 ((flatMapBits (natToBits 8) bytes) ++
      List.replicate ((5 - (flatMapBits (natToBits 8) bytes).length % 5) % 5) false)).map
        b32charOf).length * 5 / 8) = (flatMapBits (natToBits 8) bytes).length := by
    rw [List.length_map]
    simp only [List.length_append, List.length_replicate] at hplen
    omega
  rw [hcount, List.take_left, bitsToVals8_flatMapBits bytes h]

theorem mixed_case_roundtrip (name : List Nat) (h : ∀ b ∈ name, b < 128) :
    mixed_case_package_name_decode (mixed_case_package_name_encode name) = some name := by
  unfold mixed_case_package_name_decode
  rw [show base32Decode (mixed_case_package_name_encode name) =
      base32Decode (base32Encode name) from rfl,
    base32_roundtrip name (fun b hb => Nat.lt_trans (h b hb) (by norm_num))]
  simp only [Option.some_bind, string_from_utf8]
  rw [if_pos]
  exact List.all_eq_true.mpr (fun x hx => decide_eq_true (h x hx))

theorem b32charOf_range (v : Nat) (h : v < 32) :
    (97 ≤ b32charOf v ∧ b32charOf v ≤ 122) ∨ (50 ≤ b32charOf v ∧ b32charOf v ≤ 55) := by
  unfold b32charOf
  split_ifs <;> [left; right] <;> omega

theorem mem_encode_range (name : List Nat) (c : Nat)
    (hc : c ∈ mixed_case_package_name_encode name) :
    (97 ≤ c ∧ c ≤ 122) ∨ (50 ≤ c ∧ c ≤ 55) := by
  unfold mixed_case_package_name_encode base32Encode at hc
  simp only at hc
  rcases List.mem_map.mp hc with ⟨v, hv, rfl⟩
  exact b32charOf_range v (bitsToVals5_lt _ v hv)

/-! ### Decimal digits and u8 parsing -/

theorem natToDecimalDigits_digits (n : Nat) :
    ∀ c ∈ natToDecimalDigits n, 48 ≤ c ∧ c ≤ 57 := by
  induction n using Nat.strong_induction_on with
  | _ n ih =>
    rw [natToDecimalDigits]
    split
    · next h => intro c hc; simp at hc; omega
    · next h =>
      intro c hc
      rcases List.mem_append.mp hc with h1 | h1
      · exact ih (n / 10) (Nat.div_lt_self (by omega) (by omega)) c h1
      · simp at h1; omega

theorem natToDecimalDigits_ne_nil (n : Nat) : natToDecimalDigits n ≠ [] := by
  rw [natToDecimalDigits]
  split <;> simp

theorem digitsVal_append_digit (s : List Nat) (d : Nat) :
    digitsVal (s ++ [d]) = 10 * digitsVal s + (d - 48) := by
  simp [digitsVal, List.foldl_append]

theorem digitsVal_natToDecimalDigits (n : Nat) :
    digitsVal (natToDecimalDigits n) = n := by
  induction n using Nat.strong_induction_on with
  | _ n ih =>
    rw [natToDecimalDigits]
    split
    · next h => simp [digitsVal]
    · next h =>
      rw [digitsVal_append_digit, ih (n / 10) (Nat.div_lt_self (by omega) (by omega))]
      omega

theorem stripLeadingPlus_eq_self (s : List Nat) (h : s.head? ≠ some 43) :
    stripLeadingPlus s = s := by
  unfold stripLeadingPlus
  rw [if_neg h]

theorem parseU8_natToDecimalDigits (n : Nat) (h : n ≤ 255) :
    parseU8 (natToDecimalDigits n) = some n := by
  unfold parseU8
  have hdig := natToDecimalDigits_digits n
  have hne := natToDecimalDigits_ne_nil n
  have hhead : (natToDecimalDigits n).head? ≠ some 43 := by
    cases hd : natToDecimalDigits n with
    | nil => exact absurd hd hne
    | cons c t =>
      have := hdig c (by rw [hd]; simp)
      simp
      omega
  rw [stripLeadingPlus_eq_self _ hhead]
  rw [if_pos ⟨hne, List.all_eq_true.mpr
    (fun x hx => decide_eq_true (hdig x hx))⟩]
  rw [digitsVal_natToDecimalDigits]
  rw [if_pos h]

theorem parseU8_eq_none_of_mem (s : List Nat) (c : Nat) (hc : c ∈ s)
    (hnd : isDigitB c = false) (h43 : c ≠ 43) : parseU8 s = none := by
  unfold parseU8
  have hmem : c ∈ stripLeadingPlus s := by
    unfold stripLeadingPlus
    split
    · next hh =>
      cases s with
      | nil => simp at hc
      | cons a t =>
        simp only [List.head?_cons, Option.some.injEq] at hh
        subst hh
        rcases List.mem_cons.mp hc with h1 | h1
        · exact absurd h1 h43
        · simpa using h1
    · exact hc
  have hall : ¬((stripLeadingPlus s).all isDigitB = true) := by
    intro hall
    have hdig := List.all_eq_true.mp hall c hmem
    rw [hnd] at hdig
    exact Bool.noConfusion hdig
  rw [if_neg (fun hcond => hall hcond.2)]

/-! ### Character class lemmas -/

theorem isSemverCharB_facts (c : Nat) (h : isSemverCharB c = true) :
    c ≠ 95 ∧ c ≠ 47 ∧ c ≠ 64 ∧ c < 128 := by
  simp only [isSemverCharB, isIdentCharB, isDigitB, Bool.or_eq_true, decide_eq_true_eq,
    beq_iff_eq] at h
  rcases h with ((h | h | h | h) | h) | h <;> omega

theorem validSemverB_mem (s : List Nat) (h : validSemverB s = true) :
    ∀ c ∈ s, isSemverCharB c = true := by
  unfold validSemverB at h
  rw [Bool.and_eq_true] at h
  exact List.all_eq_true.mp h.1

theorem validSemverB_not_mem_95 (s : List Nat) (h : validSemverB s = true) :
    (95 : Nat) ∉ s :=
  fun hm => (isSemverCharB_facts 95 (validSemverB_mem s h 95 hm)).1 rfl

theorem validSemverB_not_mem_47 (s : List Nat) (h : validSemverB s = true) :
    (47 : Nat) ∉ s :=
  fun hm => (isSemverCharB_facts 47 (validSemverB_mem s h 47 hm)).2.1 rfl

theorem isNameChar_facts (c : Nat) (h : isNameChar c = true) :
    c ≠ 47 ∧ c ≠ 64 ∧ c < 128 := by
  simp only [isNameChar, isDigitB, Bool.or_eq_true, decide_eq_true_eq, beq_iff_eq] at h
  rcases h with ((((h | h) | h) | h) | h) | h <;> omega

theorem validNamePart_facts (p : List Nat) (h : validNamePart p = true) :
    p ≠ [] ∧ (∀ c ∈ p, isNameChar c = true) ∧ p.head? ≠ some 46 ∧ p.head? ≠ some 95 := by
  unfold validNamePart at h
  simp only [Bool.and_eq_true, Bool.not_eq_true', List.isEmpty_eq_false_iff_exists_mem,
    bne_iff_ne, ne_eq] at h
  obtain ⟨⟨⟨h1, h2⟩, h3⟩, h4⟩ := h
  refine ⟨?_, List.all_eq_true.mp h2, h3, h4⟩
  rintro rfl
  simp at h1

theorem validNamePart_not_mem_47 (p : List Nat) (h : validNamePart p = true) :
    (47 : Nat) ∉ p :=
  fun hm => (isNameChar_facts 47 ((validNamePart_facts p h).2.1 47 hm)).1 rfl

theorem validNamePart_all_lt_128 (p : List Nat) (h : validNamePart p = true) :
    ∀ c ∈ p, c < 128 :=
  fun c hc => (isNameChar_facts c ((validNamePart_facts p h).2.1 c hc)).2.2

/-! ### Version segment parsing lemmas -/

theorem parseVCI_plain (version : List Nat) (hv : validSemverB version = true) :
    parseVersionAndCopyIndex version = some (version, 0) := by
  unfold parseVersionAndCopyIndex
  rw [(splitOnce_eq_none_iff 95 version).mpr (validSemverB_not_mem_95 version hv)]
  unfold parse_from_npm
  rw [if_pos hv]
  rfl

theorem parseVCI_indexed (version : List Nat) (ci : Nat)
    (hv : validSemverB version = true) (hci : ci ≤ 255) :
    parseVersionAndCopyIndex (version ++ 95 :: natToDecimalDigits ci) =
      some (version, ci) := by
  unfold parseVersionAndCopyIndex
  rw [splitOnce_append 95 _ _ (validSemverB_not_mem_95 version hv)]
  simp only [Option.elim_some]
  rw [parseU8_natToDecimalDigits ci hci, Option.some_bind]
  unfold parse_from_npm
  rw [if_pos hv]
  rfl

/-! ### Name decomposition and resolution of encoded folders -/

theorem validPackageName_cases (name : List Nat) (h : validPackageName name = true) :
    (validNamePart name = true ∧ name.head? ≠ some 64) ∨
    (∃ scope part, name = (64 :: scope) ++ 47 :: part ∧ validNamePart scope = true ∧
      validNamePart part = true ∧ (47 : Nat) ∉ scope) := by
  unfold validPackageName at h
  by_cases hh : name.head? = some 64
  · right
    rw [if_pos hh] at h
    cases name with
    | nil => simp at hh
    | cons c t =>
      simp only [List.head?_cons, Option.some.injEq] at hh
      subst hh
      simp only [List.tail_cons] at h
      cases hsp : splitOnce 47 t with
      | none => rw [hsp] at h; simp [Option.elim] at h
      | some sp =>
        obtain ⟨scope, part⟩ := sp
        rw [hsp] at h
        simp only [Option.elim_some, Bool.and_eq_true] at h
        obtain ⟨hl, hfree⟩ := splitOnce_eq_some 47 t scope part hsp
        exact ⟨scope, part, by rw [hl]; rfl, h.1, h.2, hfree⟩
  · left
    rw [if_neg hh] at h
    exact ⟨h, hh⟩

theorem joinSlash_append (a b : List (List Nat)) (ha : a ≠ []) (hb : b ≠ []) :
    joinSlash (a ++ b) = joinSlash a ++ 47 :: joinSlash b := by
  induction a with
  | nil => exact absurd rfl ha
  | cons x a' ih =>
    cases a' with
    | nil =>
      cases b with
      | nil => exact absurd rfl hb
      | cons y b' => rfl
    | cons z a'' =>
      rw [List.cons_append, joinSlash_cons_of_ne_nil x _ (by simp),
        ih (by simp), joinSlash_cons_of_ne_nil x (z :: a'') (by simp)]
      simp

theorem startsWithDotDotSlash_eq_false (l : List Nat) (h : l.head? ≠ some 46) :
    startsWithDotDotSlash l = false := by
  unfold startsWithDotDotSlash
  apply decide_eq_false
  intro heq
  apply h
  cases l with
  | nil => simp at heq
  | cons c rest =>
    rw [show (c :: rest).take 3 = c :: rest.take 2 from rfl, List.cons.injEq] at heq
    simp [heq.1]

theorem resolve_body (url name vp : List Nat) (extras : List (List Nat))
    (r : List Nat × Nat)
    (hn : validPackageName name = true)
    (hvp47 : (47 : Nat) ∉ vp)
    (hex : ∀ e ∈ extras, (47 : Nat) ∉ e)
    (hparse : parseVersionAndCopyIndex vp = some r)
    (hdot : startsWithDotDotSlash url = false)
    (hstep : decodeEncodedNameStep url = some (name ++ 47 :: joinSlash (vp :: extras))) :
    maybe_resolve_package_folder_id_from_specifier url = some ⟨⟨name, r.1⟩, r.2⟩ := by
  have hsplit : splitOn 47 (name ++ 47 :: joinSlash (vp :: extras)) =
      splitOn 47 name ++ vp :: extras := by
    rw [splitOn_append, splitOn_joinSlash (vp :: extras) (by simp)]
    intro p hp
    rcases List.mem_cons.mp hp with h1 | h1
    · subst h1; exact hvp47
    · exact hex p h1
  unfold maybe_resolve_package_folder_id_from_specifier resolveTakenParts
  rw [hdot, if_neg Bool.false_ne_true, hstep, Option.some_bind]
  simp only []
  rcases validPackageName_cases name hn with ⟨hvn, hh64⟩ |
    ⟨scope, part, hdecomp, hvs, hvpart, hsc47⟩
  · have hn47 : (47 : Nat) ∉ name := validNamePart_not_mem_47 name hvn
    have hnne : name ≠ [] := (validNamePart_facts name hvn).1
    have hnot64 : ¬((name ++ 47 :: joinSlash (vp :: extras)).head? = some 64) := by
      rw [head?_append_left _ _ hnne]
      intro hcon
      cases name with
      | nil => exact hnne rfl
      | cons c t =>
        simp only [List.head?_cons, Option.some.injEq] at hcon
        subst hcon
        have hmem := (validNamePart_facts _ hvn).2.1 64 (by simp)
        exact (isNameChar_facts 64 hmem).2.1 rfl
    rw [hsplit, splitOn_of_not_mem 47 name hn47, if_neg hnot64]
    rw [show (([name] ++ vp :: extras).take 2) = [name, vp] from rfl]
    rw [if_neg (by simp), Option.some_bind]
    rw [show ([name, vp].getLast?) = some vp from rfl, Option.some_bind, hparse]
    rfl
  · subst hdecomp
    have hscope47 : (47 : Nat) ∉ (64 :: scope) := by
      intro hm
      rcases List.mem_cons.mp hm with h1 | h1
      · exact absurd h1.symm (by omega)
      · exact hsc47 h1
    have hpart47 : (47 : Nat) ∉ part := validNamePart_not_mem_47 part hvpart
    have hsplitname : splitOn 47 ((64 :: scope) ++ 47 :: part) =
        [64 :: scope] ++ [part] := by
      rw [splitOn_append, splitOn_of_not_mem 47 _ hscope47,
        splitOn_of_not_mem 47 _ hpart47]
    have hhead : (((64 :: scope) ++ 47 :: part) ++
        47 :: joinSlash (vp :: extras)).head? = some 64 := rfl
    rw [hsplit, hsplitname, if_pos hhead]
    rw [show ((([64 :: scope] ++ [part]) ++ vp :: extras).take 3) =
      [64 :: scope, part, vp] from rfl]
    rw [if_neg (by simp), Option.some_bind]
    rw [show ([64 :: scope, part, vp].getLast?) = some vp from rfl, Option.some_bind,
      hparse]
    rfl

theorem validPackageName_head (name : List Nat) (h : validPackageName name = true) :
    name ≠ [] ∧ name.head? ≠ some 46 ∧ name.head? ≠ some 95 := by
  rcases validPackageName_cases name h with ⟨hvn, _⟩ | ⟨scope, part, hd, _, _, _⟩
  · obtain ⟨h1, _, h3, h4⟩ := validNamePart_facts name hvn
    exact ⟨h1, h3, h4⟩
  · subst hd
    refine ⟨by simp, by simp, by simp⟩

theorem validPackageName_all_lt_128 (name : List Nat) (h : validPackageName name = true) :
    ∀ c ∈ name, c < 128 := by
  rcases validPackageName_cases name h with ⟨hvn, _⟩ | ⟨scope, part, hd, hvs, hvpart, _⟩
  · exact validNamePart_all_lt_128 name hvn
  · subst hd
    intro c hc
    rcases List.mem_append.mp hc with h1 | h1
    · rcases List.mem_cons.mp h1 with h2 | h2
      · omega
      · exact validNamePart_all_lt_128 scope hvs c h2
    · rcases List.mem_cons.mp h1 with h2 | h2
      · omega
      · exact validNamePart_all_lt_128 part hvpart c h2

theorem package_folder_for_id_eq (name version : List Nat) (ci : Nat) :
    package_folder_for_id ⟨⟨name, version⟩, ci⟩ =
      package_name_folder name ++
        [if ci = 0 then version else version ++ 95 :: natToDecimalDigits ci] := by
  unfold package_folder_for_id package_folder_for_name_and_version
  by_cases h : ci = 0 <;> simp [h]

theorem resolve_folder_id_with_extras (name version : List Nat) (ci : Nat)
    (extras : List (List Nat))
    (hn : validPackageName name = true) (hv : validSemverB version = true)
    (hci : ci < 256) (hex : ∀ e ∈ extras, (47 : Nat) ∉ e) :
    maybe_resolve_package_folder_id_from_specifier
        (joinSlash (package_folder_for_id ⟨⟨name, version⟩, ci⟩ ++ extras)) =
      some ⟨⟨name, version⟩, ci⟩ := by
  have hvp47 : (47 : Nat) ∉
      (if ci = 0 then version else version ++ 95 :: natToDecimalDigits ci) := by
    split
    · exact validSemverB_not_mem_47 version hv
    · intro hm
      rcases List.mem_append.mp hm with h1 | h1
      · exact validSemverB_not_mem_47 version hv h1
      · rcases List.mem_cons.mp h1 with h2 | h2
        · exact absurd h2 (by omega)
        · have := natToDecimalDigits_digits ci 47 h2
          omega
  have hparse : parseVersionAndCopyIndex
      (if ci = 0 then version else version ++ 95 :: natToDecimalDigits ci) =
      some (version, ci) := by
    split
    · next h0 => rw [h0]; exact parseVCI_plain version hv
    · exact parseVCI_indexed version ci hv (by omega)
  have hexvp : ∀ p ∈ (if ci = 0 then version
      else version ++ 95 :: natToDecimalDigits ci) :: extras, (47 : Nat) ∉ p := by
    intro p hp
    rcases List.mem_cons.mp hp with h1 | h1
    · subst h1; exact hvp47
    · exact hex p h1
  rw [package_folder_for_id_eq,
    show (package_name_folder name ++
        [if ci = 0 then version else version ++ 95 :: natToDecimalDigits ci]) ++ extras =
      package_name_folder name ++
        (if ci = 0 then version else version ++ 95 :: natToDecimalDigits ci) :: extras by
      simp]
  unfold package_name_folder
  split
  · -- mixed-case name: one underscore-prefixed base32 segment
    have henc47 : (47 : Nat) ∉ mixed_case_package_name_encode name := by
      intro hm
      rcases mem_encode_range name 47 hm with ⟨h1, _⟩ | ⟨_, h2⟩ <;> omega
    rw [show [95 :: mixed_case_package_name_encode name] ++
        (if ci = 0 then version else version ++ 95 :: natToDecimalDigits ci) :: extras =
        (95 :: mixed_case_package_name_encode name) ::
        (if ci = 0 then version else version ++ 95 :: natToDecimalDigits ci) :: extras
      from rfl]
    rw [joinSlash_cons_of_ne_nil _ _ (by simp), List.cons_append]
    apply resolve_body _ name _ extras (version, ci) hn hvp47 hex hparse
    · exact startsWithDotDotSlash_eq_false _ (by simp)
    · unfold decodeEncodedNameStep
      simp only [List.head?_cons, List.tail_cons]
      rw [if_pos trivial]
      rw [splitOn_append, splitOn_of_not_mem 47 _ henc47,
        splitOn_joinSlash _ (by simp) hexvp]
      rw [show ([mixed_case_package_name_encode name] ++
          (if ci = 0 then version else version ++ 95 :: natToDecimalDigits ci) :: extras) =
          mixed_case_package_name_encode name ::
          (if ci = 0 then version else version ++ 95 :: natToDecimalDigits ci) :: extras
        from rfl]
      rw [show (mixed_case_package_name_encode name ::
          (if ci = 0 then version else version ++ 95 :: natToDecimalDigits ci) ::
            extras).head? = some (mixed_case_package_name_encode name) from rfl,
        Option.some_bind,
        mixed_case_roundtrip name (validPackageName_all_lt_128 name hn),
        Option.map_some']
      rw [show (mixed_case_package_name_encode name ::
          (if ci = 0 then version else version ++ 95 :: natToDecimalDigits ci) ::
            extras).tail =
          (if ci = 0 then version else version ++ 95 :: natToDecimalDigits ci) :: extras
        from rfl]
      rw [joinSlash_cons_of_ne_nil _ _ (by simp)]
  · -- all-lower-case name: literal path segments
    rw [joinSlash_append _ _ (splitOn_ne_nil 47 name) (by simp), joinSlash_splitOn]
    apply resolve_body _ name _ extras (version, ci) hn hvp47 hex hparse
    · apply startsWithDotDotSlash_eq_false
      rw [head?_append_left _ _ (validPackageName_head name hn).1]
      exact (validPackageName_head name hn).2.1
    · unfold decodeEncodedNameStep
      rw [if_neg ?_]
      rw [head?_append_left _ _ (validPackageName_head name hn).1]
      exact (validPackageName_head name hn).2.2

/-! ### First-split versus last-split equivalence -/

theorem parseVCI_eq_spec (s : List Nat) :
    parseVersionAndCopyIndex s = parseVersionAndCopyIndexSpec s := by
  cases h : splitOnce 95 s with
  | none =>
    have hmem : (95 : Nat) ∉ s := (splitOnce_eq_none_iff 95 s).mp h
    have hlast : splitLastOnce 95 s = none := (splitLastOnce_eq_none_iff 95 s).mpr hmem
    unfold parseVersionAndCopyIndex parseVersionAndCopyIndexSpec
    rw [h, hlast]
  | some ab =>
    obtain ⟨a, b⟩ := ab
    obtain ⟨hl, hfree⟩ := splitOnce_eq_some 95 s a b h
    by_cases hb : (95 : Nat) ∈ b
    · have hpu : parseU8 b = none :=
        parseU8_eq_none_of_mem b 95 hb (by decide) (by omega)
      have hsmem : (95 : Nat) ∈ s := by rw [hl]; simp
      have hsome : ∃ a' b', splitLastOnce 95 s = some (a', b') := by
        cases hls : splitLastOnce 95 s with
        | none => exact absurd ((splitLastOnce_eq_none_iff 95 s).mp hls) (by simp [hsmem])
        | some ab' =>
          obtain ⟨a'', b''⟩ := ab'
          exact ⟨a'', b'', rfl⟩
      obtain ⟨a', b', hls⟩ := hsome
      obtain ⟨hl', hfree'⟩ := splitLastOnce_eq_some 95 s a' b' hls
      have hmem' : (95 : Nat) ∈ a' := by
        have hc : List.count 95 (a ++ 95 :: b) = List.count 95 (a' ++ 95 :: b') := by
          rw [← hl, ← hl']
        rw [List.count_append, List.count_append, List.count_cons_self, List.count_cons_self,
          List.count_eq_zero_of_not_mem hfree, List.count_eq_zero_of_not_mem hfree'] at hc
        have hbpos : 0 < List.count 95 b := List.count_pos_iff.mpr hb
        have : 0 < List.count 95 a' := by omega
        exact List.count_pos_iff.mp this
      have hvs' : validSemverB a' = false := by
        cases hcon : validSemverB a' with
        | false => rfl
        | true => exact absurd hmem' (validSemverB_not_mem_95 a' hcon)
      unfold parseVersionAndCopyIndex parseVersionAndCopyIndexSpec
      rw [h, hls]
      simp only [Option.elim_some]
      rw [hpu, Option.none_bind]
      cases hpu' : parseU8 b' with
      | none => rw [Option.none_bind]
      | some ci =>
        rw [Option.some_bind]
        unfold parse_from_npm
        rw [if_neg (by simp [hvs'])]
        rfl
    · have hls : splitLastOnce 95 s = some (a, b) := by
        rw [hl]; exact splitLastOnce_append 95 a b hb
      unfold parseVersionAndCopyIndex parseVersionAndCopyIndexSpec
      rw [h, hls]

theorem resolve_eq_spec_split (relative_url : List Nat) :
    maybe_resolve_package_folder_id_from_specifier relative_url =
      maybe_resolve_spec_split relative_url := by
  unfold maybe_resolve_package_folder_id_from_specifier maybe_resolve_spec_split
  cases h : resolveTakenParts relative_url with
  | none => simp
  | some parts =>
    cases hg : parts.getLast? with
    | none => simp [hg]
    | some vp => simp [hg, parseVCI_eq_spec vp]

/-! ### Claim theorems for the path codec -/

/-- C1: for every syntactically valid package name (scoped and mixed-case
included), every valid npm version and every duplicate index, decoding the
relative specifier of the folder produced by
`package_folder_for_id` with `maybe_resolve_package_folder_id_from_specifier`
returns exactly the original folder identity. -/
theorem encode_decode_roundtrip (name version : List Nat) (ci : Nat)
    (hn : validPackageName name = true) (hv : validSemverB version = true)
    (hci : ci < 256) :
    maybe_resolve_package_folder_id_from_specifier
        (joinSlash (package_folder_for_id ⟨⟨name, version⟩, ci⟩)) =
      some ⟨⟨name, version⟩, ci⟩ := by
  have h := resolve_folder_id_with_extras name version ci [] hn hv hci (by simp)
  simpa using h

theorem encode_decode_roundtrip_witness :
    validPackageName [74, 83, 79, 78] = true ∧
    validSemverB [50, 46, 49, 46, 53] = true ∧
    maybe_resolve_package_folder_id_from_specifier
        (joinSlash (package_folder_for_id ⟨⟨[74, 83, 79, 78], [50, 46, 49, 46, 53]⟩, 1⟩)) =
      some ⟨⟨[74, 83, 79, 78], [50, 46, 49, 46, 53]⟩, 1⟩ :=
  ⟨by decide, by decide,
    encode_decode_roundtrip [74, 83, 79, 78] [50, 46, 49, 46, 53] 1 (by decide) (by decide)
      (by decide)⟩

/-- C5: the decoder splits the final path segment at an underscore into
version and duplicate index, defaulting the index to 0 when no underscore is
present and failing when the suffix does not parse as a `u8`; splitting at
the first underscore (`split_once`, as the code does) and at the last
underscore (as the specification words it) give the same decoding result on
every input, because a version string can never contain an underscore. -/
theorem version_segment_last_split_equiv :
    (∀ relative_url : List Nat,
      maybe_resolve_package_folder_id_from_specifier relative_url =
        maybe_resolve_spec_split relative_url) ∧
    (∀ version_part : List Nat,
      parseVersionAndCopyIndex version_part = parseVersionAndCopyIndexSpec version_part) :=
  ⟨resolve_eq_spec_split, parseVCI_eq_spec⟩

/-- C10: a specifier nested arbitrarily deep below a package version folder
decodes to the same folder identity as the version folder itself; the extra
path segments are ignored. -/
theorem nested_specifier_same_folder_id (name version : List Nat) (ci : Nat)
    (extras : List (List Nat))
    (hn : validPackageName name = true) (hv : validSemverB version = true)
    (hci : ci < 256) (hex : ∀ e ∈ extras, (47 : Nat) ∉ e) :
    maybe_resolve_package_folder_id_from_specifier
        (joinSlash (package_folder_for_id ⟨⟨name, version⟩, ci⟩ ++ extras)) =
      maybe_resolve_package_folder_id_from_specifier
        (joinSlash (package_folder_for_id ⟨⟨name, version⟩, ci⟩)) := by
  rw [resolve_folder_id_with_extras name version ci extras hn hv hci hex]
  have h0 := resolve_folder_id_with_extras name version ci [] hn hv hci (by simp)
  simp only [List.append_nil] at h0
  rw [h0]

theorem nested_specifier_same_folder_id_witness :
    validPackageName [106, 115, 111, 110] = true ∧
    maybe_resolve_package_folder_id_from_specifier
        (joinSlash (package_folder_for_id ⟨⟨[106, 115, 111, 110], [49, 46, 50, 46, 53]⟩, 0⟩ ++
          [[100, 105, 115, 116], [105, 110, 100, 101, 120, 46, 106, 115]])) =
      maybe_resolve_package_folder_id_from_specifier
        (joinSlash (package_folder_for_id ⟨⟨[106, 115, 111, 110], [49, 46, 50, 46, 53]⟩, 0⟩)) :=
  ⟨by decide,
    nested_specifier_same_folder_id [106, 115, 111, 110] [49, 46, 50, 46, 53] 0
      [[100, 105, 115, 116], [105, 110, 100, 101, 120, 46, 106, 115]]
      (by decide) (by decide) (by decide) (by decide)⟩

/-! ### Filesystem and cache state model

The remaining claims are about the stateful operations of `NpmCache` and
`with_folder_sync_lock`.  The filesystem is a set of existing directories
and files (paths are segment lists below the registry folder, matching the
path codec above); fallible OS calls are driven by a fault-injection
environment.  `CacheState` carries ghost observation counters
(`fetchCount`, `hitCount`, `actionCount`) that count network fetches, early
cache-hit returns and population-action executions; they never influence
control flow. -/

/-- A filesystem path below the registry folder. -/
abbrev FsPath := List (List Nat)

/-- Source constant `NPM_PACKAGE_SYNC_LOCK_FILENAME = ".deno_sync_lock"`,
as bytes. -/
def NPM_PACKAGE_SYNC_LOCK_FILENAME : List Nat :=
  [46, 100, 101, 110, 111, 95, 115, 121, 110, 99, 95, 108, 111, 99, 107]

/-- A representative extracted content file name, `package.json` as bytes. -/
def PACKAGE_JSON : List Nat :=
  [112, 97, 99, 107, 97, 103, 101, 46, 106, 115, 111, 110]

/-- Modelled filesystem state: the sets of existing directories and files. -/
structure FsState where
  dirs : List FsPath
  files : List FsPath
deriving DecidableEq

/-- Fault-injection environment: which filesystem calls succeed.
`openSyncLockOk` is the outcome of opening the sync lock file with
`write(true).create(true)`; with those options an existing file is simply
opened, so only an actual I/O failure makes it false. -/
structure FsEnv where
  createDirAllOk : Bool
  openSyncLockOk : Bool
  removeDirOk : Bool
  removeFileOk : Bool
deriving DecidableEq

/-- The environment with no injected faults. -/
def FsEnv.ok : FsEnv := ⟨true, true, true, true⟩

/-- Modelled from the spec: the cache policy type `CacheSetting`
(cli/args, outside these sources): always-use-cache, reload-all,
reload-selected and cache-only. -/
inductive CacheSetting where
  | only
  | reloadAll
  | reloadSome (names : List (List Nat))
  | use
deriving DecidableEq

/-- Modelled from the spec: `CacheSetting::should_use_for_npm_package` —
reload-all and a matching reload-selected entry force a reload, every other
policy reuses the cache (name patterns simplified to exact names). -/
def CacheSetting.should_use_for_npm_package (s : CacheSetting) (name : List Nat) : Bool :=
  match s with
  | .reloadAll => false
  | .reloadSome names => !(names.contains name)
  | _ => true

/-- The mutable state of an `NpmCache` run: the filesystem, the run-scoped
dedup set `previously_reloaded_packages`, and the ghost counters. -/
structure CacheState where
  fs : FsState
  previously_reloaded_packages : List NpmPackageNv
  fetchCount : Nat
  hitCount : Nat
  actionCount : Nat
deriving DecidableEq

/-- Errors surfaced by the cache operations.  `cleanupFailure` is the
combined error of `with_folder_sync_lock` (original failure, failed
rollback, path to delete manually); `failedCaching` is the
"Failed caching npm package" context added by `ensure_package`;
`assertionFailed` models the `assert_ne!` panic of `ensure_copy_package`. -/
inductive CacheError where
  | createDirError (folder : FsPath)
  | syncLockError (folder : FsPath)
  | actionError
  | cleanupFailure (package : NpmPackageNv) (original : CacheError) (folder : FsPath)
  | notCached (name : List Nat)
  | tarballNotFound
  | assertionFailed
  | failedCaching (package : NpmPackageNv) (err : CacheError)
deriving DecidableEq

deriving instance DecidableEq for Except

/-- Create a directory if absent (`fs::create_dir_all` on the success path;
parent directories are not tracked separately in the model). -/
def FsState.addDir (st : FsState) (p : FsPath) : FsState :=
  if p ∈ st.dirs then st else { st with dirs := p :: st.dirs }

/-- Create a file if absent (`OpenOptions::write(true).create(true)` on the
success path: creates the file when missing, opens it otherwise). -/
def FsState.addFile (st : FsState) (p : FsPath) : FsState :=
  if p ∈ st.files then st else { st with files := p :: st.files }

/-- Delete a file (`fs::remove_file` on the success path). -/
def FsState.removeFile (st : FsState) (p : FsPath) : FsState :=
  { st with files := st.files.filter (fun q => decide (q ≠ p)) }

/-- Whether `pre` is `p` itself or an ancestor of `p`. -/
def pathUnder : FsPath → FsPath → Bool
  | [], _ => true
  | _ :: _, [] => false
  | a :: as, b :: bs => a == b && pathUnder as bs

/-- Delete a directory and everything below it (`fs::remove_dir_all` on the
success path). -/
def FsState.removeDirAll (st : FsState) (p : FsPath) : FsState :=
  { dirs := st.dirs.filter (fun q => !(pathUnder p q)),
    files := st.files.filter (fun q => !(pathUnder p q)) }

/-- The state in which the population action runs: directory created, sync
lock file created (or opened, if it already existed), ghost action counter
bumped. -/
def sync_lock_staged (output_folder : FsPath) (st : CacheState) : CacheState :=
  let st1 := { st with fs := st.fs.addDir output_folder }
  let st2 := { st1 with
    fs := st1.fs.addFile (output_folder ++ [NPM_PACKAGE_SYNC_LOCK_FILENAME]) }
  { st2 with actionCount := st2.actionCount + 1 }

/-- Source `with_folder_sync_lock`'s inner function (`fn inner`,
cache.rs lines 49-88): create the directory, open the sync lock file with
`write(true).create(true)` — an already existing sync lock file does NOT
make this fail — run the action, and on success best-effort delete the sync
lock file. -/
def with_folder_sync_lock_inner (env : FsEnv) (output_folder : FsPath)
    (action : CacheState → Bool × CacheState) (st : CacheState) :
    Except CacheError Unit × CacheState :=
  if !env.createDirAllOk then (.error (.createDirError output_folder), st)
  else if !env.openSyncLockOk then
    (.error (.syncLockError output_folder), { st with fs := st.fs.addDir output_folder })
  else
    let res := action (sync_lock_staged output_folder st)
    if res.1 then
      (.ok (),
        if env.removeFileOk then
          { res.2 with fs :=
            res.2.fs.removeFile (output_folder ++ [NPM_PACKAGE_SYNC_LOCK_FILENAME]) }
        else res.2)
    else (.error .actionError, res.2)

/-- Source `with_folder_sync_lock` (cache.rs lines 44-113): run the inner
protocol; on any inner failure roll back by deleting the whole folder, a
`NotFound` from the deletion is swallowed, any other deletion failure is
surfaced as the combined cleanup error naming the package, both failures
and the folder. -/
def with_folder_sync_lock (env : FsEnv) (package : NpmPackageNv)
    (output_folder : FsPath) (action : CacheState → Bool × CacheState)
    (st : CacheState) : Except CacheError Unit × CacheState :=
  let res := with_folder_sync_lock_inner env output_folder action st
  match res.1 with
  | .ok u => (.ok u, res.2)
  | .error err =>
    if output_folder ∈ res.2.fs.dirs then
      if env.removeDirOk then
        (.error err, { res.2 with fs := res.2.fs.removeDirAll output_folder })
      else (.error (.cleanupFailure package err output_folder), res.2)
    else (.error err, res.2)

/-- Configuration of a run: the cache policy and the outcomes of the
external collaborators (network download, tarball verify-and-extract,
recursive hard link), which live outside these sources. -/
structure NpmCacheCfg where
  cache_setting : CacheSetting
  downloadResult : Option Unit
  extractOk : Bool
  hardLinkOk : Bool
deriving DecidableEq

/-- Source `NpmCache::should_use_global_cache_for_package`
(cache.rs lines 323-332):
`cache_setting.should_use_for_npm_package(name) || !set.insert(nv)`.
The `||` short-circuits: the insertion into the run-dedup set happens only
when the policy check returns false. -/
def should_use_global_cache_for_package (cfg : NpmCacheCfg) (package : NpmPackageNv)
    (st : CacheState) : Bool × CacheState :=
  if cfg.cache_setting.should_use_for_npm_package package.name then (true, st)
  else if package ∈ st.previously_reloaded_packages then (true, st)
  else (false, { st with
    previously_reloaded_packages := package :: st.previously_reloaded_packages })

/-- Modelled from the spec: `verify_and_extract_tarball`
(cli/npm/tarball.rs, not under these sources); spec item 5 of
`ensure_package`: run the sync-locked population protocol with the
population action = verify-and-extract the archive, which writes the
package contents (one representative file in the model) and reports the
configured verification outcome. -/
def verify_and_extract_tarball (env : FsEnv) (cfg : NpmCacheCfg)
    (package : NpmPackageNv) (package_folder : FsPath) (st : CacheState) :
    Except CacheError Unit × CacheState :=
  with_folder_sync_lock env package package_folder
    (fun s => (cfg.extractOk,
      { s with fs := s.fs.addFile (package_folder ++ [PACKAGE_JSON]) })) st

/-- Source `NpmCache::ensure_package_inner` (cache.rs lines 346-386):
dedup-and-policy check (with its insertion side effect), early cache-hit
return when the folder exists without the sync lock file, the cache-only
error, then download and extract.  The ghost `fetchCount` counts downloads
and `hitCount` counts early cache-hit returns. -/
def ensure_package_inner (env : FsEnv) (cfg : NpmCacheCfg) (package : NpmPackageNv)
    (st : CacheState) : Except CacheError Unit × CacheState :=
  let package_folder := package_folder_for_name_and_version package
  let r1 := should_use_global_cache_for_package cfg package st
  if r1.1 = true ∧ package_folder ∈ r1.2.fs.dirs ∧
      (package_folder ++ [NPM_PACKAGE_SYNC_LOCK_FILENAME]) ∉ r1.2.fs.files then
    (.ok (), { r1.2 with hitCount := r1.2.hitCount + 1 })
  else if cfg.cache_setting = CacheSetting.only then
    (.error (.notCached package.name), r1.2)
  else
    let st2 := { r1.2 with fetchCount := r1.2.fetchCount + 1 }
    match cfg.downloadResult with
    | some _ => verify_and_extract_tarball env cfg package package_folder st2
    | none => (.error .tarballNotFound, st2)

/-- Source `NpmCache::ensure_package` (cache.rs lines 334-344): wraps every
failure of the inner function with the offending package. -/
def ensure_package (env : FsEnv) (cfg : NpmCacheCfg) (package : NpmPackageNv)
    (st : CacheState) : Except CacheError Unit × CacheState :=
  let res := ensure_package_inner env cfg package st
  match res.1 with
  | .ok u => (.ok u, res.2)
  | .error e => (.error (.failedCaching package e), res.2)

/-- Source `NpmCache::ensure_copy_package` (cache.rs lines 392-417):
`assert_ne!(folder_id.copy_index, 0)` panics on a zero duplicate index
before any filesystem access (modelled as the `assertionFailed` error with
the state untouched); then a no-op cache hit when the folder exists without
the sync lock file and the policy allows reuse; otherwise the sync-locked
population protocol with action = recursive hard link from the index-0
folder (`hard_link_dir_recursive` is modelled from the spec as writing the
target's contents with the configured outcome). -/
def ensure_copy_package (env : FsEnv) (cfg : NpmCacheCfg)
    (folder_id : NpmPackageCacheFolderId) (st : CacheState) :
    Except CacheError Unit × CacheState :=
  if folder_id.copy_index = 0 then (.error .assertionFailed, st)
  else
    let package_folder := package_folder_for_id folder_id
    if package_folder ∈ st.fs.dirs ∧
        (package_folder ++ [NPM_PACKAGE_SYNC_LOCK_FILENAME]) ∉ st.fs.files ∧
        cfg.cache_setting.should_use_for_npm_package folder_id.nv.name = true then
      (.ok (), { st with hitCount := st.hitCount + 1 })
    else
      with_folder_sync_lock env folder_id.nv package_folder
        (fun s => (cfg.hardLinkOk,
          { s with fs := s.fs.addFile (package_folder ++ [PACKAGE_JSON]) })) st

/-! ### Claim theorems for the stateful operations -/

/-- C9: `ensure_copy_package` with duplicate index 0 fails fast as a caller
contract violation (`assert_ne!` panic, modelled as `assertionFailed`),
leaving the state — in particular the filesystem — completely untouched. -/
theorem ensure_copy_package_zero_index_fails (env : FsEnv) (cfg : NpmCacheCfg)
    (folder_id : NpmPackageCacheFolderId) (st : CacheState)
    (h : folder_id.copy_index = 0) :
    ensure_copy_package env cfg folder_id st = (.error .assertionFailed, st) := by
  unfold ensure_copy_package
  rw [if_pos h]

theorem ensure_copy_package_zero_index_fails_witness :
    ensure_copy_package FsEnv.ok ⟨CacheSetting.use, some (), true, true⟩
        ⟨⟨[106, 115, 111, 110], [49, 46, 50, 46, 53]⟩, 0⟩ ⟨⟨[], []⟩, [], 0, 0, 0⟩ =
      (.error .assertionFailed, ⟨⟨[], []⟩, [], 0, 0, 0⟩) :=
  ensure_copy_package_zero_index_fails _ _ _ _ rfl

/-- C4 counterexample: the claim says the dedup check inserts the package
into `previously_reloaded_packages` under every cache policy; under the
always-use-cache policy the policy check short-circuits the `||` and no
insertion happens — the set is still empty after the call. -/
theorem dedup_no_insert_on_reuse_policy :
    (⟨[106, 115, 111, 110], [49, 46, 50, 46, 53]⟩ : NpmPackageNv) ∉
      (should_use_global_cache_for_package ⟨CacheSetting.use, some (), true, true⟩
        ⟨[106, 115, 111, 110], [49, 46, 50, 46, 53]⟩
        ⟨⟨[], []⟩, [], 0, 0, 0⟩).2.previously_reloaded_packages := by
  decide

/-- C4 (amended): the dedup-set insertion of
`should_use_global_cache_for_package` happens exactly when the policy check
returns false — after any call the package is in the set iff the policy
disallowed reuse or it was already there; the returned eligibility is the
policy check `||` prior membership, so a second call for the same package
in the same run is always eligible under a force-reload policy. -/
theorem dedup_insert_iff_policy_disallows (cfg : NpmCacheCfg) (package : NpmPackageNv)
    (st : CacheState) :
    (package ∈
        (should_use_global_cache_for_package cfg package st).2.previously_reloaded_packages
      ↔ (cfg.cache_setting.should_use_for_npm_package package.name = false ∨
          package ∈ st.previously_reloaded_packages)) ∧
    (should_use_global_cache_for_package cfg package st).1 =
      (cfg.cache_setting.should_use_for_npm_package package.name ||
        decide (package ∈ st.previously_reloaded_packages)) := by
  unfold should_use_global_cache_for_package
  by_cases hp : cfg.cache_setting.should_use_for_npm_package package.name
  · rw [if_pos hp]
    constructor
    · simp [hp]
    · simp [hp]
  · rw [if_neg hp]
    have hp' : cfg.cache_setting.should_use_for_npm_package package.name = false :=
      Bool.eq_false_iff.mpr hp
    by_cases hm : package ∈ st.previously_reloaded_packages
    · rw [if_pos hm]
      constructor
      · simp [hm]
      · simp [hp', hm]
    · rw [if_neg hm]
      constructor
      · simp [hp']
      · simp [hp', hm]

theorem dedup_insert_iff_policy_disallows_witness :
    (⟨[106, 115, 111, 110], [49, 46, 50, 46, 53]⟩ : NpmPackageNv) ∈
      (should_use_global_cache_for_package ⟨CacheSetting.reloadAll, some (), true, true⟩
        ⟨[106, 115, 111, 110], [49, 46, 50, 46, 53]⟩
        ⟨⟨[], []⟩, [], 0, 0, 0⟩).2.previously_reloaded_packages :=
  (dedup_insert_iff_policy_disallows ⟨CacheSetting.reloadAll, some (), true, true⟩
    ⟨[106, 115, 111, 110], [49, 46, 50, 46, 53]⟩ ⟨⟨[], []⟩, [], 0, 0, 0⟩).1.mpr
    (Or.inl (by decide))

/-- C7: under the cache-only policy, when the package folder is not already
present and valid the whole call fails with the "not cached" error naming
the package (wrapped in the per-package context), the state is completely
unchanged — in particular no network fetch happens (`fetchCount` is part of
the unchanged state). -/
theorem cache_only_not_cached (env : FsEnv) (cfg : NpmCacheCfg) (package : NpmPackageNv)
    (st : CacheState) (hpol : cfg.cache_setting = CacheSetting.only)
    (hinv : ¬(package_folder_for_name_and_version package ∈ st.fs.dirs ∧
      (package_folder_for_name_and_version package ++ [NPM_PACKAGE_SYNC_LOCK_FILENAME]) ∉
        st.fs.files)) :
    ensure_package env cfg package st =
      (.error (.failedCaching package (.notCached package.name)), st) := by
  have hinner : ensure_package_inner env cfg package st =
      (.error (.notCached package.name), st) := by
    unfold ensure_package_inner should_use_global_cache_for_package
    rw [hpol]
    rw [if_pos (show CacheSetting.only.should_use_for_npm_package package.name = true
      from rfl)]
    rw [if_neg (fun h => hinv ⟨h.2.1, h.2.2⟩)]
    rw [if_pos rfl]
  unfold ensure_package
  rw [hinner]

theorem FsState.addFile_dirs (fs : FsState) (p : FsPath) :
    (fs.addFile p).dirs = fs.dirs := by
  unfold FsState.addFile
  split <;> rfl

theorem FsState.removeFile_dirs (fs : FsState) (p : FsPath) :
    (fs.removeFile p).dirs = fs.dirs := rfl

theorem FsState.addDir_mem (fs : FsState) (p : FsPath) : p ∈ (fs.addDir p).dirs := by
  unfold FsState.addDir
  split
  · next h => exact h
  · exact List.mem_cons_self _ _

theorem FsState.removeFile_not_mem (fs : FsState) (p : FsPath) :
    p ∉ (fs.removeFile p).files := by
  unfold FsState.removeFile
  intro hm
  have := List.of_mem_filter hm
  simp at this

theorem pathUnder_refl (p : FsPath) : pathUnder p p = true := by
  induction p with
  | nil => rfl
  | cons a as ih => simp [pathUnder, ih]

theorem FsState.removeDirAll_not_mem (fs : FsState) (p : FsPath) :
    p ∉ (fs.removeDirAll p).dirs := by
  unfold FsState.removeDirAll
  intro hm
  have := List.of_mem_filter hm
  rw [pathUnder_refl] at this
  simp at this

theorem with_folder_sync_lock_ghost (env : FsEnv) (pkg : NpmPackageNv)
    (folder : FsPath) (action : CacheState → Bool × CacheState) (st : CacheState)
    (ha : ∀ s, ((action s).2).previously_reloaded_packages = s.previously_reloaded_packages ∧
      ((action s).2).fetchCount = s.fetchCount ∧ ((action s).2).hitCount = s.hitCount) :
    ((with_folder_sync_lock env pkg folder action st).2).previously_reloaded_packages =
      st.previously_reloaded_packages ∧
    ((with_folder_sync_lock env pkg folder action st).2).fetchCount = st.fetchCount ∧
    ((with_folder_sync_lock env pkg folder action st).2).hitCount = st.hitCount := by
  have hinner :
      ((with_folder_sync_lock_inner env folder action st).2).previously_reloaded_packages =
        st.previously_reloaded_packages ∧
      ((with_folder_sync_lock_inner env folder action st).2).fetchCount = st.fetchCount ∧
      ((with_folder_sync_lock_inner env folder action st).2).hitCount = st.hitCount := by
    unfold with_folder_sync_lock_inner
    split
    · exact ⟨rfl, rfl, rfl⟩
    · split
      · exact ⟨rfl, rfl, rfl⟩
      · cases hact : (action (sync_lock_staged folder st)).1 with
        | true =>
          simp only [hact]
          rw [if_pos trivial]
          by_cases hrm : env.removeFileOk
          · rw [if_pos hrm]
            exact ha _
          · rw [if_neg hrm]
            exact ha _
        | false =>
          simp only [hact]
          rw [if_neg (by simp)]
          exact ha _
  cases hres : with_folder_sync_lock_inner env folder action st with
  | mk r st' =>
    rw [hres] at hinner
    unfold with_folder_sync_lock
    rw [hres]
    cases r with
    | ok u => exact hinner
    | error e =>
      dsimp only at hinner ⊢
      by_cases hmem : folder ∈ st'.fs.dirs
      · rw [if_pos hmem]
        by_cases hrd : env.removeDirOk
        · rw [if_pos hrd]
          exact hinner
        · rw [if_neg hrd]
          exact hinner
      · rw [if_neg hmem]
        exact hinner

theorem with_folder_sync_lock_ok_state (env : FsEnv) (pkg : NpmPackageNv)
    (folder : FsPath) (action : CacheState → Bool × CacheState) (st : CacheState)
    (hok : (with_folder_sync_lock env pkg folder action st).1 = .ok ())
    (hrm : env.removeFileOk = true)
    (hadir : ∀ s, folder ∈ s.fs.dirs → folder ∈ ((action s).2).fs.dirs) :
    folder ∈ ((with_folder_sync_lock env pkg folder action st).2).fs.dirs ∧
    (folder ++ [NPM_PACKAGE_SYNC_LOCK_FILENAME]) ∉
      ((with_folder_sync_lock env pkg folder action st).2).fs.files := by
  by_cases hc : env.createDirAllOk
  · by_cases ho : env.openSyncLockOk
    · cases hact : (action (sync_lock_staged folder st)).1 with
      | false =>
        exfalso
        rw [with_folder_sync_lock, with_folder_sync_lock_inner] at hok
        simp only [hc, ho, Bool.not_true, Bool.false_eq_true, if_false, hact] at hok
        split at hok <;> try split at hok
        all_goals simp at hok
      | true =>
        have hstep : with_folder_sync_lock env pkg folder action st =
            (.ok (), { (action (sync_lock_staged folder st)).2 with
              fs := (FsState.removeFile (action (sync_lock_staged folder st)).2.fs
                (folder ++ [NPM_PACKAGE_SYNC_LOCK_FILENAME])) }) := by
          unfold with_folder_sync_lock with_folder_sync_lock_inner
          simp [hc, ho, hact, hrm]
        rw [hstep]
        constructor
        · rw [FsState.removeFile_dirs]
          apply hadir
          have : folder ∈ (sync_lock_staged folder st).fs.dirs := by
            unfold sync_lock_staged
            rw [FsState.addFile_dirs]
            exact FsState.addDir_mem _ _
          exact this
        · exact FsState.removeFile_not_mem _ _
    · exfalso
      rw [with_folder_sync_lock, with_folder_sync_lock_inner] at hok
      simp only [hc, ho, Bool.not_true, Bool.not_false, Bool.false_eq_true, if_false,
        if_true] at hok
      split at hok <;> try split at hok
      all_goals simp at hok
  · exfalso
    rw [with_folder_sync_lock, with_folder_sync_lock_inner] at hok
    simp only [hc, Bool.not_false, if_true] at hok
    split at hok <;> try split at hok
    all_goals simp at hok

/-- C2 counterexample: the sync lock file is opened with
`write(true).create(true)` — create-or-open, not create-only-if-absent — so
when the sentinel file already exists (here it is the only file of the
state, inside the already existing target folder) the operation does NOT
abort: it succeeds and the population action runs (the ghost action counter
goes from 0 to 1), refuting the claimed fail-fast on an existing sentinel. -/
theorem sync_lock_existing_sentinel_runs_action :
    ((with_folder_sync_lock FsEnv.ok ⟨[106, 115, 111, 110], [49, 46, 50, 46, 53]⟩ [[97]]
        (fun s => (true, s))
        ⟨⟨[[[97]]], [[[97], NPM_PACKAGE_SYNC_LOCK_FILENAME]]⟩, [], 0, 0, 0⟩).1 = .ok ()) ∧
    ((with_folder_sync_lock FsEnv.ok ⟨[106, 115, 111, 110], [49, 46, 50, 46, 53]⟩ [[97]]
        (fun s => (true, s))
        ⟨⟨[[[97]]], [[[97], NPM_PACKAGE_SYNC_LOCK_FILENAME]]⟩, [], 0, 0, 0⟩).2.actionCount
      = 1) := by
  constructor
  · rfl
  · rfl

/-- C2 (amended): the sentinel is created with create-if-absent-or-open
semantics, so an already existing sentinel does not make the operation
fail; what the fail-fast clause actually covers is an I/O failure of the
open itself: when opening the sync lock file fails, the operation aborts
with an error — the sync-lock error, or the combined cleanup error if the
rollback deletion also fails — and the population action is never run. -/
theorem sync_lock_open_fail_aborts (env : FsEnv) (pkg : NpmPackageNv) (folder : FsPath)
    (action : CacheState → Bool × CacheState) (st : CacheState)
    (hc : env.createDirAllOk = true) (ho : env.openSyncLockOk = false) :
    (with_folder_sync_lock env pkg folder action st).1 =
      .error (if env.removeDirOk = true then CacheError.syncLockError folder
        else CacheError.cleanupFailure pkg (.syncLockError folder) folder) ∧
    ((with_folder_sync_lock env pkg folder action st).2).actionCount = st.actionCount := by
  have hinner : with_folder_sync_lock_inner env folder action st =
      (.error (.syncLockError folder), { st with fs := st.fs.addDir folder }) := by
    unfold with_folder_sync_lock_inner
    simp [hc, ho]
  have hmem : folder ∈ ({ st with fs := st.fs.addDir folder } : CacheState).fs.dirs :=
    FsState.addDir_mem st.fs folder
  unfold with_folder_sync_lock
  rw [hinner]
  dsimp only
  rw [if_pos hmem]
  by_cases hrd : env.removeDirOk = true
  · rw [if_pos hrd, if_pos hrd]
    exact ⟨rfl, rfl⟩
  · rw [if_neg hrd, if_neg hrd]
    exact ⟨rfl, rfl⟩

theorem sync_lock_open_fail_aborts_witness :
    ((with_folder_sync_lock ⟨true, false, true, true⟩
        ⟨[106, 115, 111, 110], [49, 46, 50, 46, 53]⟩ [[97]] (fun s => (true, s))
        ⟨⟨[], []⟩, [], 0, 0, 0⟩).1 =
      .error (if (⟨true, false, true, true⟩ : FsEnv).removeDirOk = true
        then CacheError.syncLockError [[97]]
        else CacheError.cleanupFailure ⟨[106, 115, 111, 110], [49, 46, 50, 46, 53]⟩
          (.syncLockError [[97]]) [[97]])) ∧
    ((with_folder_sync_lock ⟨true, false, true, true⟩
        ⟨[106, 115, 111, 110], [49, 46, 50, 46, 53]⟩ [[97]] (fun s => (true, s))
        ⟨⟨[], []⟩, [], 0, 0, 0⟩).2.actionCount = 0) :=
  sync_lock_open_fail_aborts ⟨true, false, true, true⟩
    ⟨[106, 115, 111, 110], [49, 46, 50, 46, 53]⟩ [[97]] (fun s => (true, s))
    ⟨⟨[], []⟩, [], 0, 0, 0⟩ rfl rfl

/-- C6: when the population action fails inside `with_folder_sync_lock`,
the protocol rolls back by deleting the whole target directory: unless the
rollback deletion itself fails while the directory still exists, the
original action error is surfaced and the target directory does not exist
afterwards (a `NotFound` from the deletion is swallowed); in the failing
rollback case the combined cleanup error naming the package, both failures
and the path for manual deletion is surfaced instead. -/
theorem sync_lock_rollback_removes_folder (env : FsEnv) (pkg : NpmPackageNv)
    (folder : FsPath) (action : CacheState → Bool × CacheState) (st : CacheState)
    (hc : env.createDirAllOk = true) (ho : env.openSyncLockOk = true)
    (hfail : (action (sync_lock_staged folder st)).1 = false) :
    if folder ∈ (action (sync_lock_staged folder st)).2.fs.dirs ∧ env.removeDirOk = false
    then with_folder_sync_lock env pkg folder action st =
      (.error (.cleanupFailure pkg .actionError folder),
        (action (sync_lock_staged folder st)).2)
    else (with_folder_sync_lock env pkg folder action st).1 = .error .actionError ∧
      folder ∉ ((with_folder_sync_lock env pkg folder action st).2).fs.dirs := by
  have hinner : with_folder_sync_lock_inner env folder action st =
      (.error .actionError, (action (sync_lock_staged folder st)).2) := by
    unfold with_folder_sync_lock_inner
    simp [hc, ho, hfail]
  unfold with_folder_sync_lock
  rw [hinner]
  dsimp only
  by_cases hmem : folder ∈ (action (sync_lock_staged folder st)).2.fs.dirs
  · by_cases hrd : env.removeDirOk = true
    · rw [if_neg (by simp [hrd]), if_pos hmem, if_pos hrd]
      exact ⟨rfl, FsState.removeDirAll_not_mem _ _⟩
    · have hrd' : env.removeDirOk = false := by
        revert hrd
        cases env.removeDirOk <;> simp
      rw [if_pos ⟨hmem, hrd'⟩, if_pos hmem, if_neg hrd]
  · rw [if_neg (fun h => hmem h.1), if_neg hmem]
    exact ⟨rfl, hmem⟩

theorem sync_lock_rollback_removes_folder_witness :
    (if [[97]] ∈ ((fun (s : CacheState) => (false, s))
          (sync_lock_staged [[97]] ⟨⟨[], []⟩, [], 0, 0, 0⟩)).2.fs.dirs ∧
        FsEnv.ok.removeDirOk = false
    then with_folder_sync_lock FsEnv.ok ⟨[106, 115, 111, 110], [49, 46, 50, 46, 53]⟩
        [[97]] (fun s => (false, s)) ⟨⟨[], []⟩, [], 0, 0, 0⟩ =
      (.error (.cleanupFailure ⟨[106, 115, 111, 110], [49, 46, 50, 46, 53]⟩
          .actionError [[97]]),
        ((fun (s : CacheState) => (false, s))
          (sync_lock_staged [[97]] ⟨⟨[], []⟩, [], 0, 0, 0⟩)).2)
    else (with_folder_sync_lock FsEnv.ok ⟨[106, 115, 111, 110], [49, 46, 50, 46, 53]⟩
        [[97]] (fun s => (false, s)) ⟨⟨[], []⟩, [], 0, 0, 0⟩).1 = .error .actionError ∧
      [[97]] ∉ ((with_folder_sync_lock FsEnv.ok
        ⟨[106, 115, 111, 110], [49, 46, 50, 46, 53]⟩
        [[97]] (fun s => (false, s)) ⟨⟨[], []⟩, [], 0, 0, 0⟩).2).fs.dirs) :=
  sync_lock_rollback_removes_folder FsEnv.ok ⟨[106, 115, 111, 110], [49, 46, 50, 46, 53]⟩
    [[97]] (fun s => (false, s)) ⟨⟨[], []⟩, [], 0, 0, 0⟩ rfl rfl rfl

theorem should_use_state (cfg : NpmCacheCfg) (package : NpmPackageNv) (st : CacheState) :
    ((should_use_global_cache_for_package cfg package st).2).fs = st.fs ∧
    ((should_use_global_cache_for_package cfg package st).2).hitCount = st.hitCount ∧
    ((should_use_global_cache_for_package cfg package st).2).fetchCount = st.fetchCount := by
  unfold should_use_global_cache_for_package
  split
  · exact ⟨rfl, rfl, rfl⟩
  · split
    · exact ⟨rfl, rfl, rfl⟩
    · exact ⟨rfl, rfl, rfl⟩

theorem ensure_package_snd (env : FsEnv) (cfg : NpmCacheCfg) (package : NpmPackageNv)
    (st : CacheState) :
    (ensure_package env cfg package st).2 = (ensure_package_inner env cfg package st).2 := by
  unfold ensure_package
  cases hres : ensure_package_inner env cfg package st with
  | mk r st' => cases r <;> rfl

theorem ensure_package_ok_iff (env : FsEnv) (cfg : NpmCacheCfg) (package : NpmPackageNv)
    (st : CacheState) :
    (ensure_package env cfg package st).1 = .ok () ↔
      (ensure_package_inner env cfg package st).1 = .ok () := by
  unfold ensure_package
  cases hres : ensure_package_inner env cfg package st with
  | mk r st' =>
    cases r with
    | ok u => cases u; simp
    | error e => simp

theorem verify_and_extract_ghost (env : FsEnv) (cfg : NpmCacheCfg)
    (package : NpmPackageNv) (folder : FsPath) (st : CacheState) :
    ((verify_and_extract_tarball env cfg package folder st).2).previously_reloaded_packages =
      st.previously_reloaded_packages ∧
    ((verify_and_extract_tarball env cfg package folder st).2).fetchCount = st.fetchCount ∧
    ((verify_and_extract_tarball env cfg package folder st).2).hitCount = st.hitCount := by
  unfold verify_and_extract_tarball
  exact with_folder_sync_lock_ghost env package folder _ st (fun s => ⟨rfl, rfl, rfl⟩)

theorem ensure_package_inner_hitCount_of_sentinel (env : FsEnv) (cfg : NpmCacheCfg)
    (package : NpmPackageNv) (st : CacheState)
    (hs : (package_folder_for_name_and_version package ++ [NPM_PACKAGE_SYNC_LOCK_FILENAME])
      ∈ st.fs.files) :
    ((ensure_package_inner env cfg package st).2).hitCount = st.hitCount := by
  unfold ensure_package_inner
  rw [if_neg ?hneg]
  case hneg =>
    rintro ⟨_, _, h3⟩
    rw [(should_use_state cfg package st).1] at h3
    exact h3 hs
  split
  · exact (should_use_state cfg package st).2.1
  · cases hd : cfg.downloadResult with
    | some u =>
      dsimp only
      rw [(verify_and_extract_ghost env cfg package
        (package_folder_for_name_and_version package) _).2.2]
      exact (should_use_state cfg package st).2.1
    | none => exact (should_use_state cfg package st).2.1

/-- C8: a folder containing the sync lock sentinel file is never treated as
valid: with the sentinel present neither `ensure_package` nor
`ensure_copy_package` takes its early cache-hit return — the ghost
`hitCount`, incremented exactly by those two early returns, is unchanged —
regardless of policy, environment and whatever else the folder contains. -/
theorem sentinel_folder_never_cache_hit (env : FsEnv) (cfg : NpmCacheCfg)
    (package : NpmPackageNv) (folder_id : NpmPackageCacheFolderId) (st : CacheState) :
    ((package_folder_for_name_and_version package ++ [NPM_PACKAGE_SYNC_LOCK_FILENAME])
        ∈ st.fs.files →
      ((ensure_package env cfg package st).2).hitCount = st.hitCount) ∧
    ((package_folder_for_id folder_id ++ [NPM_PACKAGE_SYNC_LOCK_FILENAME]) ∈ st.fs.files →
      ((ensure_copy_package env cfg folder_id st).2).hitCount = st.hitCount) := by
  constructor
  · intro hs
    rw [ensure_package_snd]
    exact ensure_package_inner_hitCount_of_sentinel env cfg package st hs
  · intro hs
    unfold ensure_copy_package
    split
    · rfl
    · rw [if_neg (fun h => h.2.1 hs)]
      exact (with_folder_sync_lock_ghost env folder_id.nv _ _ st
        (fun s => ⟨rfl, rfl, rfl⟩)).2.2

theorem sentinel_folder_never_cache_hit_witness :
    (((ensure_package FsEnv.ok ⟨CacheSetting.use, some (), true, true⟩
        ⟨[106, 115, 111, 110], [49, 46, 50, 46, 53]⟩
        ⟨⟨[package_folder_for_name_and_version ⟨[106, 115, 111, 110], [49, 46, 50, 46, 53]⟩,
            package_folder_for_id ⟨⟨[106, 115, 111, 110], [49, 46, 50, 46, 53]⟩, 1⟩],
          [package_folder_for_name_and_version ⟨[106, 115, 111, 110], [49, 46, 50, 46, 53]⟩
              ++ [NPM_PACKAGE_SYNC_LOCK_FILENAME],
            package_folder_for_id ⟨⟨[106, 115, 111, 110], [49, 46, 50, 46, 53]⟩, 1⟩
              ++ [NPM_PACKAGE_SYNC_LOCK_FILENAME]]⟩, [], 0, 0, 0⟩).2).hitCount = 0) ∧
    (((ensure_copy_package FsEnv.ok ⟨CacheSetting.use, some (), true, true⟩
        ⟨⟨[106, 115, 111, 110], [49, 46, 50, 46, 53]⟩, 1⟩
        ⟨⟨[package_folder_for_name_and_version ⟨[106, 115, 111, 110], [49, 46, 50, 46, 53]⟩,
            package_folder_for_id ⟨⟨[106, 115, 111, 110], [49, 46, 50, 46, 53]⟩, 1⟩],
          [package_folder_for_name_and_version ⟨[106, 115, 111, 110], [49, 46, 50, 46, 53]⟩
              ++ [NPM_PACKAGE_SYNC_LOCK_FILENAME],
            package_folder_for_id ⟨⟨[106, 115, 111, 110], [49, 46, 50, 46, 53]⟩, 1⟩
              ++ [NPM_PACKAGE_SYNC_LOCK_FILENAME]]⟩, [], 0, 0, 0⟩).2).hitCount = 0) :=
  ⟨(sentinel_folder_never_cache_hit FsEnv.ok ⟨CacheSetting.use, some (), true, true⟩
      ⟨[106, 115, 111, 110], [49, 46, 50, 46, 53]⟩
      ⟨⟨[106, 115, 111, 110], [49, 46, 50, 46, 53]⟩, 1⟩ _).1 (by simp),
    (sentinel_folder_never_cache_hit FsEnv.ok ⟨CacheSetting.use, some (), true, true⟩
      ⟨[106, 115, 111, 110], [49, 46, 50, 46, 53]⟩
      ⟨⟨[106, 115, 111, 110], [49, 46, 50, 46, 53]⟩, 1⟩ _).2 (by simp)⟩

theorem first_call_reloadAll (env : FsEnv) (cfg : NpmCacheCfg) (package : NpmPackageNv)
    (st : CacheState) (hpol : cfg.cache_setting = CacheSetting.reloadAll)
    (hfresh : package ∉ st.previously_reloaded_packages) :
    ensure_package_inner env cfg package st =
      (match cfg.downloadResult with
       | some _ => verify_and_extract_tarball env cfg package
          (package_folder_for_name_and_version package)
          { st with
            previously_reloaded_packages := package :: st.previously_reloaded_packages,
            fetchCount := st.fetchCount + 1 }
       | none => (.error .tarballNotFound,
          { st with
            previously_reloaded_packages := package :: st.previously_reloaded_packages,
            fetchCount := st.fetchCount + 1 })) := by
  have hr1 : should_use_global_cache_for_package cfg package st =
      (false, { st with
        previously_reloaded_packages := package :: st.previously_reloaded_packages }) := by
    unfold should_use_global_cache_for_package
    rw [hpol]
    rw [if_neg (by simp [CacheSetting.should_use_for_npm_package])]
    rw [if_neg hfresh]
  unfold ensure_package_inner
  rw [hr1]
  dsimp only
  rw [if_neg (by rintro ⟨hcon, _⟩; simp at hcon)]
  rw [if_neg (by simp [hpol])]

theorem second_call_hit (env : FsEnv) (cfg : NpmCacheCfg) (package : NpmPackageNv)
    (st : CacheState)
    (hpol : cfg.cache_setting = CacheSetting.reloadAll)
    (hmem : package ∈ st.previously_reloaded_packages)
    (hdir : package_folder_for_name_and_version package ∈ st.fs.dirs)
    (hsent : (package_folder_for_name_and_version package ++
      [NPM_PACKAGE_SYNC_LOCK_FILENAME]) ∉ st.fs.files) :
    ensure_package env cfg package st = (.ok (), { st with hitCount := st.hitCount + 1 }) := by
  have hr1 : should_use_global_cache_for_package cfg package st = (true, st) := by
    unfold should_use_global_cache_for_package
    rw [hpol, if_neg (by simp [CacheSetting.should_use_for_npm_package]), if_pos hmem]
  have hinner : ensure_package_inner env cfg package st =
      (.ok (), { st with hitCount := st.hitCount + 1 }) := by
    unfold ensure_package_inner
    rw [hr1]
    dsimp only
    rw [if_pos ⟨rfl, hdir, hsent⟩]
  unfold ensure_package
  rw [hinner]

/-- C3: under the force-reload policy, calling `ensure_package` twice in
one run for the same package with a successful first call performs exactly
one network fetch: the first call fetches once (ghost `fetchCount` goes up
by one) and the second call is a cache hit (returns success, fetches
nothing, bumps the ghost `hitCount`). -/
theorem ensure_package_twice_single_fetch (env : FsEnv) (cfg : NpmCacheCfg)
    (package : NpmPackageNv) (st : CacheState)
    (hpol : cfg.cache_setting = CacheSetting.reloadAll)
    (hfresh : package ∉ st.previously_reloaded_packages)
    (hrm : env.removeFileOk = true)
    (h1 : (ensure_package env cfg package st).1 = .ok ()) :
    (ensure_package env cfg package ((ensure_package env cfg package st).2)).1 = .ok () ∧
    ((ensure_package env cfg package st).2).fetchCount = st.fetchCount + 1 ∧
    ((ensure_package env cfg package
        ((ensure_package env cfg package st).2)).2).fetchCount =
      ((ensure_package env cfg package st).2).fetchCount ∧
    ((ensure_package env cfg package
        ((ensure_package env cfg package st).2)).2).hitCount =
      ((ensure_package env cfg package st).2).hitCount + 1 := by
  have hio : (ensure_package_inner env cfg package st).1 = .ok () :=
    (ensure_package_ok_iff env cfg package st).mp h1
  have hshape := first_call_reloadAll env cfg package st hpol hfresh
  cases hd : cfg.downloadResult with
  | none =>
    exfalso
    rw [hshape, hd] at hio
    simp at hio
  | some u =>
    rw [hd] at hshape
    have hvok : (verify_and_extract_tarball env cfg package
        (package_folder_for_name_and_version package)
        { st with
          previously_reloaded_packages := package :: st.previously_reloaded_packages,
          fetchCount := st.fetchCount + 1 }).1 = .ok () := by
      rw [hshape] at hio
      exact hio
    have hst1 : (ensure_package env cfg package st).2 =
        (verify_and_extract_tarball env cfg package
          (package_folder_for_name_and_version package)
          { st with
            previously_reloaded_packages := package :: st.previously_reloaded_packages,
            fetchCount := st.fetchCount + 1 }).2 := by
      rw [ensure_package_snd, hshape]
    have hghost := verify_and_extract_ghost env cfg package
      (package_folder_for_name_and_version package)
      { st with
        previously_reloaded_packages := package :: st.previously_reloaded_packages,
        fetchCount := st.fetchCount + 1 }
    unfold verify_and_extract_tarball at hvok hst1 hghost
    have hstate := with_folder_sync_lock_ok_state env package
      (package_folder_for_name_and_version package) _ _ hvok hrm
      (fun s h => by simpa [FsState.addFile_dirs] using h)
    have hmem1 : package ∈
        ((ensure_package env cfg package st).2).previously_reloaded_packages := by
      rw [hst1, hghost.1]
      exact List.mem_cons_self _ _
    have hdir1 : package_folder_for_name_and_version package ∈
        ((ensure_package env cfg package st).2).fs.dirs := by
      rw [hst1]
      exact hstate.1
    have hsent1 : (package_folder_for_name_and_version package ++
        [NPM_PACKAGE_SYNC_LOCK_FILENAME]) ∉
        ((ensure_package env cfg package st).2).fs.files := by
      rw [hst1]
      exact hstate.2
    have hsecond := second_call_hit env cfg package ((ensure_package env cfg package st).2)
      hpol hmem1 hdir1 hsent1
    refine ⟨?_, ?_, ?_, ?_⟩
    · rw [hsecond]
    · rw [hst1, hghost.2.1]
    · rw [hsecond]
    · rw [hsecond]

theorem ensure_package_twice_single_fetch_witness :
    ((ensure_package FsEnv.ok ⟨CacheSetting.reloadAll, some (), true, true⟩
        ⟨[106, 115, 111, 110], [49, 46, 50, 46, 53]⟩
        ((ensure_package FsEnv.ok ⟨CacheSetting.reloadAll, some (), true, true⟩
          ⟨[106, 115, 111, 110], [49, 46, 50, 46, 53]⟩ ⟨⟨[], []⟩, [], 0, 0, 0⟩).2)).1
      = .ok ()) ∧
    (((ensure_package FsEnv.ok ⟨CacheSetting.reloadAll, some (), true, true⟩
        ⟨[106, 115, 111, 110], [49, 46, 50, 46, 53]⟩ ⟨⟨[], []⟩, [], 0, 0, 0⟩).2).fetchCount
      = 0 + 1) ∧
    (((ensure_package FsEnv.ok ⟨CacheSetting.reloadAll, some (), true, true⟩
        ⟨[106, 115, 111, 110], [49, 46, 50, 46, 53]⟩
        ((ensure_package FsEnv.ok ⟨CacheSetting.reloadAll, some (), true, true⟩
          ⟨[106, 115, 111, 110], [49, 46, 50, 46, 53]⟩
          ⟨⟨[], []⟩, [], 0, 0, 0⟩).2)).2).fetchCount =
      ((ensure_package FsEnv.ok ⟨CacheSetting.reloadAll, some (), true, true⟩
        ⟨[106, 115, 111, 110], [49, 46, 50, 46, 53]⟩
        ⟨⟨[], []⟩, [], 0, 0, 0⟩).2).fetchCount) ∧
    (((ensure_package FsEnv.ok ⟨CacheSetting.reloadAll, some (), true, true⟩
        ⟨[106, 115, 111, 110], [49, 46, 50, 46, 53]⟩
        ((ensure_package FsEnv.ok ⟨CacheSetting.reloadAll, some (), true, true⟩
          ⟨[106, 115, 111, 110], [49, 46, 50, 46, 53]⟩
          ⟨⟨[], []⟩, [], 0, 0, 0⟩).2)).2).hitCount =
      ((ensure_package FsEnv.ok ⟨CacheSetting.reloadAll, some (), true, true⟩
        ⟨[106, 115, 111, 110], [49, 46, 50, 46, 53]⟩
        ⟨⟨[], []⟩, [], 0, 0, 0⟩).2).hitCount + 1) :=
  ensure_package_twice_single_fetch FsEnv.ok ⟨CacheSetting.reloadAll, some (), true, true⟩
    ⟨[106, 115, 111, 110], [49, 46, 50, 46, 53]⟩ ⟨⟨[], []⟩, [], 0, 0, 0⟩
    rfl (by simp) rfl (by decide)

theorem cache_only_not_cached_witness :
    ensure_package FsEnv.ok ⟨CacheSetting.only, some (), true, true⟩
        ⟨[106, 115, 111, 110], [49, 46, 50, 46, 53]⟩ ⟨⟨[], []⟩, [], 0, 0, 0⟩ =
      (.error (.failedCaching ⟨[106, 115, 111, 110], [49, 46, 50, 46, 53]⟩
        (.notCached [106, 115, 111, 110])), ⟨⟨[], []⟩, [], 0, 0, 0⟩) :=
  cache_only_not_cached FsEnv.ok ⟨CacheSetting.only, some (), true, true⟩
    ⟨[106, 115, 111, 110], [49, 46, 50, 46, 53]⟩ ⟨⟨[], []⟩, [], 0, 0, 0⟩ rfl
    (by simp)
